import Mathlib

/-!
Verification of the `bazaar_analysis` repository (recipe normalization in
`crafting.py`, evaluation and ranking in `analysis.py`).

The normalizer operates on arbitrary Python objects, which may contain
reference cycles.  We therefore embed Python values as a heap of container
objects (`PyObj`, addressed by `Nat`) together with immediate values
(`PyVal`).  A reference cycle is a heap whose containers point back at an
ancestor address.  Strings and numbers are immediate: the CPython code only
tracks `id()` identity for `Mapping`/`Sequence` containers (strings are
returned from before the visited-set insertion).

Numeric fields: Python `int` is embedded as `Int`; Python `float` prices in
`analysis.py` are embedded as exact rationals `ℚ` (the claims under test
concern which arithmetic operations are performed, not rounding).
-/

/-- A Python value: `None`, a string, an int, a bool, or a reference to a
container object in the heap (addresses are `Nat`). -/
inductive PyVal where
  | none
  | str (s : String)
  | int (n : Int)
  | bool (b : Bool)
  | ref (a : Nat)

/-- A Python container object stored in the heap: a `dict` (string keys, in
insertion order) or a `list`/`tuple`.  String keys cover every payload shape
the parser probes (`entry.get(...)` with string literals, `key.items()` with
symbol strings). -/
inductive PyObj where
  | map (entries : List (String × PyVal))
  | seq (elems : List PyVal)

deriving instance DecidableEq, Repr for PyVal
deriving instance DecidableEq, Repr for PyObj

/-- The heap of container objects; the address of an object is its index. -/
structure Heap where
  objs : List PyObj

/-- Dereference an address.  Every reference produced by real Python code
points at a live object; out-of-range addresses dereference to an empty
sequence (an object with no children), which keeps the model total. -/
def Heap.get (h : Heap) (a : Nat) : PyObj :=
  h.objs.getD a (PyObj.seq [])

/-- `dict.get(k)` on an association list: first binding wins, absent key
gives Python `None`.  (`lookupVal` distinguishes an absent key, which
`dict.get(k, default)` needs.) -/
def lookupVal (es : List (String × PyVal)) (k : String) : Option PyVal :=
  (es.find? (fun p => p.1 == k)).map Prod.snd

/-- `dict.get(k)` with the implicit `None` default. -/
def mget (es : List (String × PyVal)) (k : String) : PyVal :=
  (lookupVal es k).getD PyVal.none

/-- Python truthiness of a value (`bool(v)`): `None`, `""`, `0`, `False` and
empty containers are falsy. -/
def truthy (h : Heap) : PyVal → Bool
  | PyVal.none => false
  | PyVal.str s => s ≠ ""
  | PyVal.int n => n ≠ 0
  | PyVal.bool b => b
  | PyVal.ref a =>
    match h.get a with
    | PyObj.map es => !es.isEmpty
    | PyObj.seq es => !es.isEmpty

/-- A Python `a or b or ...` chain: the first truthy operand, otherwise the
last operand. -/
def orChain (h : Heap) : PyVal → List PyVal → PyVal
  | v, [] => v
  | v, w :: ws => if truthy h v then v else orChain h w ws

/-- `_coerce_product_id`: strings are stripped of surrounding whitespace,
anything else coerces to `""`.  Python `str.strip()` is implemented on the
character list (Lean's `String.trim` does not reduce in the kernel). -/
def _coerce_product_id (v : PyVal) : String :=
  match v with
  | PyVal.str s =>
    String.mk (((s.data.dropWhile Char.isWhitespace).reverse.dropWhile
      Char.isWhitespace).reverse)
  | _ => ""

/-- Python `int(string)`: optional surrounding whitespace, optional sign,
decimal digits; `none` models the `ValueError` on anything else. -/
def pyParseInt (s : String) : Option Int :=
  let cs := (s.data.dropWhile Char.isWhitespace).reverse.dropWhile
    Char.isWhitespace |>.reverse
  let core : List Char → Option Int := fun ds =>
    if ds = [] then Option.none
    else if ds.all Char.isDigit then
      some (ds.foldl (fun acc d => acc * 10 + Int.ofNat (d.toNat - 48)) 0)
    else Option.none
  match cs with
  | '-' :: rest => (core rest).map (fun n => -n)
  | '+' :: rest => core rest
  | _ => core cs

/-- Python `int(v)`, raising on non-numeric input: `none` models the
`TypeError`/`ValueError`. -/
def pyInt (v : PyVal) : Option Int :=
  match v with
  | PyVal.int n => some n
  | PyVal.bool b => some (if b then 1 else 0)
  | PyVal.str s => pyParseInt s
  | _ => Option.none

/-- `_coerce_int`: `int(value)` with `TypeError`/`ValueError` caught and
replaced by the default. -/
def _coerce_int (v : PyVal) (default : Int) : Int :=
  (pyInt v).getD default

/-- The id-like key precedence used on a candidate ingredient mapping
(`product_id or item_id or itemId or id or item or name`). -/
def idChainVal (h : Heap) (es : List (String × PyVal)) : PyVal :=
  orChain h (mget es "product_id")
    [mget es "item_id", mget es "itemId", mget es "id", mget es "item",
      mget es "name"]

/-- The amount-like key precedence used inside
`_extract_ingredient_container_inner`
(`amount or count or qty or quantity or value`). -/
def innerAmountVal (h : Heap) (es : List (String × PyVal)) : PyVal :=
  orChain h (mget es "amount")
    [mget es "count", mget es "qty", mget es "quantity", mget es "value"]

/-- The children a recursive visit descends into: the values of a mapping,
or the elements of a (non-text) sequence. -/
def PyObj.children : PyObj → List PyVal
  | PyObj.map es => es.map Prod.snd
  | PyObj.seq es => es

/-- Threads one recursive visit (`step`) through a list of children,
concatenating the yielded pairs and threading the visited set, exactly as
consuming the Python generator does.  `none` propagates visit failure
(in the model: fuel exhaustion, shown impossible below). -/
def extractChildren
    (step : PyVal → Finset Nat → Option (List (String × Int) × Finset Nat)) :
    List PyVal → Finset Nat → Option (List (String × Int) × Finset Nat)
  | [], seen => some ([], seen)
  | v :: vs, seen =>
    (step v seen).bind
      (fun r => (extractChildren step vs r.2).map (fun r2 => (r.1 ++ r2.1, r2.2)))

/-- `_extract_ingredient_container_inner`, with explicit fuel: non-container
values yield nothing; a revisited container (address already in `seen`)
yields nothing; a mapping is first tried as itself an ingredient and, when
that yields a valid pair, is not descended into; otherwise all children are
visited recursively.  Fuel is spent once per descent into a fresh container;
`termination_fuel` below is proved sufficient for every input, so the
`Option.none` (fuel-exhausted) branch is dead code. -/
def _extract_ingredient_container_inner (h : Heap) :
    Nat → PyVal → Finset Nat → Option (List (String × Int) × Finset Nat)
  | 0, _, _ => Option.none
  | Nat.succ fuel, v, seen =>
    match v with
    | PyVal.ref a =>
      if a ∈ seen then some ([], seen)
      else
        let seen' := insert a seen
        match h.get a with
        | PyObj.map es =>
          let product_id := _coerce_product_id (idChainVal h es)
          let amount := _coerce_int (innerAmountVal h es) 0
          if product_id ≠ "" ∧ 0 < amount then
            some ([(product_id, amount)], seen')
          else
            extractChildren
              (fun w s => _extract_ingredient_container_inner h fuel w s)
              (es.map Prod.snd) seen'
        | PyObj.seq es =>
          extractChildren
            (fun w s => _extract_ingredient_container_inner h fuel w s)
            es seen'
    | _ => some ([], seen)

/-- The fuel that `termination_fuel` proves sufficient for any value. -/
def enoughFuel (h : Heap) : Nat :=
  h.objs.length + 1

/-- `_extract_ingredient_container`: run the recursive extraction with a
fresh visited set and collect the yielded pairs. -/
def _extract_ingredient_container (h : Heap) (container : PyVal) :
    Option (List (String × Int)) :=
  (_extract_ingredient_container_inner h (enoughFuel h) container ∅).map
    Prod.fst

/-- A worked example used by several theorems: address 0 is a list whose
second element refers back to the list itself (a reference cycle); its first
element is a valid ingredient mapping, the third appears after the cycle. -/
def cyclicHeap : Heap :=
  { objs :=
      [PyObj.seq [PyVal.ref 1, PyVal.ref 0, PyVal.ref 2],
        PyObj.map [("item", PyVal.str "STRING"), ("amount", PyVal.int 4)],
        PyObj.map [("item", PyVal.str "WOOL"), ("amount", PyVal.int 2)]] }

/-- One ingredient of a canonical recipe (`CraftIngredient` dataclass). -/
structure CraftIngredient where
  product_id : String
  amount : Int

/-- A canonical recipe (`CraftRecipe` dataclass). -/
structure CraftRecipe where
  product_id : String
  output_amount : Int
  ingredients : List CraftIngredient

deriving instance DecidableEq, Repr for CraftIngredient
deriving instance DecidableEq, Repr for CraftRecipe

/-- Insertion-ordered dict update used for `ingredient_amounts`: an existing
key accumulates in place, a new key is appended. -/
def addAmount : List (String × Int) → String → Int → List (String × Int)
  | [], k, v => [(k, v)]
  | p :: rest, k, v =>
    if p.1 = k then (p.1, p.2 + v) :: rest else p :: addAmount rest k v

/-- Merge one container's extracted pairs into the running totals, dropping
pairs with an empty identifier or a non-positive amount
(`if not product_id or amount <= 0: continue`). -/
def mergePairs (m : List (String × Int)) (ps : List (String × Int)) :
    List (String × Int) :=
  ps.foldl (fun m p => if p.1 ≠ "" ∧ 0 < p.2 then addAmount m p.1 p.2 else m) m

/-- The fixed, ordered list of candidate ingredient containers. -/
def containerKeys : List String :=
  ["ingredients", "input", "inputs", "items", "materials", "slots",
    "recipe", "components"]

/-- The `for container in containers` loop of `_extract_ingredients`: each
non-`None` candidate container is extracted (with a fresh visited set) and
merged into the running totals. -/
def scanContainers (h : Heap) (entry : List (String × PyVal)) :
    List String → List (String × Int) → Option (List (String × Int))
  | [], m => some m
  | ck :: ks, m =>
    if mget entry ck = PyVal.none then scanContainers h entry ks m
    else
      (_extract_ingredient_container h (mget entry ck)).bind
        (fun ps => scanContainers h entry ks (mergePairs m ps))

/-- The container-scan phase of `_extract_ingredients`. -/
def containerScan (h : Heap) (entry : List (String × PyVal)) :
    Option (List (String × Int)) :=
  scanContainers h entry containerKeys []

/-- `isinstance(pattern, Sequence)` and iteration over its rows: a heap
sequence iterates its elements, a string iterates its characters (each a
one-character string); a mapping or scalar is not a `Sequence`. -/
def patternRows (h : Heap) : PyVal → Option (List PyVal)
  | PyVal.ref a =>
    match h.get a with
    | PyObj.seq es => some es
    | PyObj.map _ => Option.none
  | PyVal.str s => some (s.data.map (fun c => PyVal.str (String.mk [c])))
  | _ => Option.none

/-- The `Counter` contents: every non-whitespace character of every string
row, as one-character strings, in order. -/
def patternSymbols (rows : List PyVal) : List String :=
  rows.foldl
    (fun acc r =>
      match r with
      | PyVal.str s =>
        acc ++ (s.data.filter (fun c => !c.isWhitespace)).map
          (fun c => String.mk [c])
      | _ => acc)
    []

/-- Occurrence count of a symbol across all pattern rows (whitespace
ignored); `symbol not in char_counts` is exactly `symCount = 0`. -/
def symCount (rows : List PyVal) (sym : String) : Nat :=
  (patternSymbols rows).count sym

/-- The amount-like key precedence used on a shaped-recipe key descriptor
(`amount or count or qty`). -/
def keyAmountVal (h : Heap) (es : List (String × PyVal)) : PyVal :=
  orChain h (mget es "amount") [mget es "count", mget es "qty"]

/-- One iteration of the `for symbol, ingredient in key.items()` loop. -/
def overlayStep (h : Heap) (rows : List PyVal) (m : List (String × Int))
    (p : String × PyVal) : List (String × Int) :=
  if p.1 = "" ∨ symCount rows p.1 = 0 then m
  else
    match p.2 with
    | PyVal.ref b =>
      match h.get b with
      | PyObj.map ies =>
        let product_id := _coerce_product_id (idChainVal h ies)
        let amount := _coerce_int (keyAmountVal h ies) 0
        if product_id ≠ "" ∧ 0 < amount then
          addAmount m product_id (amount * Int.ofNat (symCount rows p.1))
        else m
      | _ => m
    | _ => m

/-- The shaped-recipe overlay: when the entry has a `"key"` mapping and a
`"pattern"` sequence, fold every symbol's contribution into the running
totals; otherwise leave them unchanged. -/
def applyOverlay (h : Heap) (entry : List (String × PyVal))
    (m : List (String × Int)) : List (String × Int) :=
  match mget entry "key", patternRows h (mget entry "pattern") with
  | PyVal.ref a, some rows =>
    match h.get a with
    | PyObj.map kentries => kentries.foldl (overlayStep h rows) m
    | _ => m
  | _, _ => m

/-- `_extract_ingredients`: container scan, then shaped overlay, then the
final dict-to-list conversion (insertion order). -/
def _extract_ingredients (h : Heap) (entry : List (String × PyVal)) :
    Option (List CraftIngredient) :=
  (containerScan h entry).map
    (fun m => (applyOverlay h entry m).map (fun p => CraftIngredient.mk p.1 p.2))

/-- The amount-like key precedence of `_decode_output`
(`output_amount or amount or count or qty or 1`). -/
def decodeAmountVal (h : Heap) (es : List (String × PyVal)) : PyVal :=
  orChain h (mget es "output_amount")
    [mget es "amount", mget es "count", mget es "qty", PyVal.int 1]

/-- `_decode_output`: a mapping candidate is probed with the id-like and
amount-like key chains; a non-empty bare string is itself the identifier;
anything else decodes to `("", 1)`. -/
def _decode_output (h : Heap) (candidate : PyVal) : String × Int :=
  match candidate with
  | PyVal.ref a =>
    match h.get a with
    | PyObj.map es =>
      (_coerce_product_id (idChainVal h es), _coerce_int (decodeAmountVal h es) 1)
    | PyObj.seq _ => ("", 1)
  | PyVal.str s => if s ≠ "" then (s, 1) else ("", 1)
  | _ => ("", 1)

/-- The four structured output candidates, decoded in order. -/
def outputCandidates (h : Heap) (entry : List (String × PyVal)) :
    List (String × Int) :=
  [mget entry "output", mget entry "result", mget entry "output_item",
    mget entry "outputItem"].map (_decode_output h)

/-- The fallback top-level id chain
(`output_item_id or outputItemId or name or id`). -/
def fallbackIdVal (h : Heap) (entry : List (String × PyVal)) : PyVal :=
  orChain h (mget entry "output_item_id")
    [mget entry "outputItemId", mget entry "name", mget entry "id"]

/-- The fallback top-level amount chain
(`output_amount or amount or count or quantity or 1`). -/
def fallbackAmountVal (h : Heap) (entry : List (String × PyVal)) : PyVal :=
  orChain h (mget entry "output_amount")
    [mget entry "amount", mget entry "count", mget entry "quantity",
      PyVal.int 1]

/-- `_extract_output`: first structured candidate with a non-empty id wins
(keeping its amount); otherwise the top-level fallback chain; otherwise the
empty id together with the amount left over from the last decode. -/
def _extract_output (h : Heap) (entry : List (String × PyVal)) :
    String × Int :=
  let decoded := outputCandidates h entry
  let first := (decoded.find? (fun p => p.1 != "")).getD (decoded.getLastD ("", 1))
  if first.1 ≠ "" then first
  else
    let pid := _coerce_product_id (fallbackIdVal h entry)
    if pid ≠ "" then (pid, _coerce_int (fallbackAmountVal h entry) 1)
    else ("", first.2)

/-- The per-entry iteration basis of `_parse_hypixel_payload`: a mapping
iterates its values, a sequence its elements, a string its characters;
anything else contributes no entries. -/
def hypixelEntries (h : Heap) (data : PyVal) : List PyVal :=
  match data with
  | PyVal.ref a =>
    match h.get a with
    | PyObj.map es => es.map Prod.snd
    | PyObj.seq es => es
  | PyVal.str s => s.data.map (fun c => PyVal.str (String.mk [c]))
  | _ => []

/-- One entry of `_parse_hypixel_payload`'s loop: skip non-mapping entries,
require a non-empty output id, require a non-empty ingredient list. -/
def parseHypixelEntry (h : Heap) (acc : List CraftRecipe) (ev : PyVal) :
    Option (List CraftRecipe) :=
  match ev with
  | PyVal.ref a =>
    match h.get a with
    | PyObj.map es =>
      let out := _extract_output h es
      if out.1 = "" then some acc
      else
        (_extract_ingredients h es).map
          (fun ings =>
            if ings.isEmpty then acc
            else acc ++ [CraftRecipe.mk out.1 out.2 ings])
    | PyObj.seq _ => some acc
  | _ => some acc

/-- `_parse_hypixel_payload`: normalise every entry in order. -/
def _parse_hypixel_payload (h : Heap) (data : PyVal) :
    Option (List CraftRecipe) :=
  (hypixelEntries h data).foldlM (parseHypixelEntry h) []

/-- Heap encoding of the repository test fixture `hypixel_payload`: two
entries, one with an `"input"` list, one with an `"ingredients"` list. -/
def basicHeap : Heap :=
  { objs :=
      [PyObj.seq [PyVal.ref 1, PyVal.ref 4],
        PyObj.map [("output", PyVal.ref 2), ("input", PyVal.ref 3)],
        PyObj.map [("itemId", PyVal.str "ENCHANTED_CARROT"),
          ("amount", PyVal.int 1)],
        PyObj.seq [PyVal.ref 5],
        PyObj.map [("output", PyVal.ref 6), ("ingredients", PyVal.ref 7)],
        PyObj.map [("itemId", PyVal.str "CARROT_ITEM"),
          ("amount", PyVal.int 160)],
        PyObj.map [("item", PyVal.str "ENCHANTED_PORK"),
          ("count", PyVal.int 1)],
        PyObj.seq [PyVal.ref 8],
        PyObj.map [("item", PyVal.str "PORK"), ("count", PyVal.int 160)]] }

/-- Heap encoding of the shaped-recipe test fixture: pattern
`["XX", " X"]` with key `{"X": {"itemId": "STRING", "amount": 5}}`. -/
def shapedHeap : Heap :=
  { objs :=
      [PyObj.seq [PyVal.ref 1],
        PyObj.map [("output", PyVal.ref 2), ("pattern", PyVal.ref 3),
          ("key", PyVal.ref 4)],
        PyObj.map [("itemId", PyVal.str "ENCHANTED_STRING"),
          ("amount", PyVal.int 1)],
        PyObj.seq [PyVal.str "XX", PyVal.str " X"],
        PyObj.map [("X", PyVal.ref 5)],
        PyObj.map [("itemId", PyVal.str "STRING"), ("amount", PyVal.int 5)]] }

/-- Canonical-payload values.  `to_payload` output and `json.loads` results
are finite trees (JSON cannot express sharing or cycles), so the canonical
load/save pair is embedded over a tree type rather than the heap. -/
inductive PyTree where
  | none
  | str (s : String)
  | int (n : Int)
  | bool (b : Bool)
  | list (elems : List PyTree)
  | dict (entries : List (String × PyTree))

/-- `v is None` on a payload value. -/
def isNoneT : PyTree → Bool
  | PyTree.none => true
  | _ => false

/-- `dict.get(k)` on a payload dict (`none` = key absent). -/
def lookupT (es : List (String × PyTree)) (k : String) : Option PyTree :=
  (es.find? (fun p => p.1 == k)).map Prod.snd

/-- Python truthiness of a payload value. -/
def truthyT : PyTree → Bool
  | PyTree.none => false
  | PyTree.str s => s ≠ ""
  | PyTree.int n => n ≠ 0
  | PyTree.bool b => b
  | PyTree.list es => !es.isEmpty
  | PyTree.dict es => !es.isEmpty

/-- Python `str(v)` on a payload value.  `str(None)` is the literal string
`"None"`.  The `repr` of a container is abstracted as a fixed non-empty
placeholder (its exact text is never observable to the claims; only its
non-emptiness is). -/
def pyStrT : PyTree → String
  | PyTree.none => "None"
  | PyTree.str s => s
  | PyTree.int n => toString n
  | PyTree.bool b => if b then "True" else "False"
  | PyTree.list _ => "[...]"
  | PyTree.dict _ => "\x7b...\x7d"

/-- Python `int(v)` on a payload value (`none` models the raised
`TypeError`/`ValueError`, which `_parse_payload` does not catch). -/
def pyIntT : PyTree → Option Int
  | PyTree.int n => some n
  | PyTree.bool b => some (if b then 1 else 0)
  | PyTree.str s => pyParseInt s
  | _ => Option.none

/-- `for x in v`: a list iterates its elements, a dict its keys, a string
its characters; `none` models the `TypeError` on anything else. -/
def iterT : PyTree → Option (List PyTree)
  | PyTree.list es => some es
  | PyTree.dict es => some (es.map (fun p => PyTree.str p.1))
  | PyTree.str s => some (s.data.map (fun c => PyTree.str (String.mk [c])))
  | _ => Option.none

/-- One ingredient row of `_parse_payload`'s inner loop: a non-mapping
ingredient raises (`.get` on it fails); a falsy id or a literal-`None`
amount skips the row; otherwise `str(id)` and `int(amount)` are recorded
(`int` may raise). -/
def parseIngredientRow (ia : List CraftIngredient) (ing : PyTree) :
    Option (List CraftIngredient) :=
  match ing with
  | PyTree.dict ies =>
    let iid := (lookupT ies "product_id").getD PyTree.none
    let amt := (lookupT ies "amount").getD PyTree.none
    if !truthyT iid || isNoneT amt then some ia
    else (pyIntT amt).map (fun n => ia ++ [CraftIngredient.mk (pyStrT iid) n])
  | _ => Option.none

/-- One entry of `_parse_payload`'s outer loop. -/
def parsePayloadEntry (acc : List CraftRecipe) (entry : PyTree) :
    Option (List CraftRecipe) :=
  match entry with
  | PyTree.dict ees =>
    let product_id := pyStrT ((lookupT ees "product_id").getD PyTree.none)
    if product_id = "" then some acc
    else
      match pyIntT ((lookupT ees "output_amount").getD (PyTree.int 1)) with
      | Option.none => Option.none
      | some output_amount =>
        match iterT ((lookupT ees "ingredients").getD (PyTree.list [])) with
        | Option.none => Option.none
        | some ingEntries =>
          (ingEntries.foldlM parseIngredientRow []).map
            (fun ings =>
              if ings.isEmpty then acc
              else acc ++ [CraftRecipe.mk product_id output_amount ings])
  | _ => Option.none

/-- `_parse_payload`: load the canonical schema.  `none` models an
uncaught exception (non-mapping data or entries, unparsable numerics). -/
def _parse_payload (data : PyTree) : Option (List CraftRecipe) :=
  match data with
  | PyTree.dict des =>
    match iterT ((lookupT des "recipes").getD (PyTree.list [])) with
    | Option.none => Option.none
    | some entries => entries.foldlM parsePayloadEntry []
  | _ => Option.none

/-- The serialised form of one ingredient. -/
def ingTree (i : CraftIngredient) : PyTree :=
  PyTree.dict
    [("product_id", PyTree.str i.product_id), ("amount", PyTree.int i.amount)]

/-- The serialised form of one recipe. -/
def recipeTree (r : CraftRecipe) : PyTree :=
  PyTree.dict
    [("product_id", PyTree.str r.product_id),
      ("output_amount", PyTree.int r.output_amount),
      ("ingredients", PyTree.list (r.ingredients.map ingTree))]

/-- `to_payload`: serialise recipes into the canonical JSON shape. -/
def to_payload (recipes : List CraftRecipe) : PyTree :=
  PyTree.dict [("recipes", PyTree.list (recipes.map recipeTree))]

/-- The price-snapshot entry (`BazaarProduct`), with float prices embedded
as exact rationals. -/
structure BazaarProduct where
  product_id : String
  sell_price : ℚ
  buy_price : ℚ
  sell_volume : Int
  buy_volume : Int

deriving instance DecidableEq, Repr for BazaarProduct

/-- `popularity = sell_volume + buy_volume`. -/
def BazaarProduct.popularity (p : BazaarProduct) : Int :=
  p.sell_volume + p.buy_volume

/-- The evaluation result (`CraftProfit` dataclass). -/
structure CraftProfit where
  product_id : String
  output_amount : Int
  total_sell_price : ℚ
  total_buy_cost : ℚ
  profit : ℚ
  roi : ℚ
  popularity : Int

deriving instance DecidableEq, Repr for CraftProfit

/-- One iteration of `evaluate_recipe`'s ingredient loop: a missing price
aborts, otherwise the cost accumulates `buy_price × amount` and the
popularity takes the minimum. -/
def evalStep (products : String → Option BazaarProduct) (acc : ℚ × Int)
    (ing : CraftIngredient) : Option (ℚ × Int) :=
  (products ing.product_id).map
    (fun ip =>
      (acc.1 + ip.buy_price * (ing.amount : ℚ), min acc.2 ip.popularity))

/-- `BazaarAnalyzer.evaluate_recipe`: `none` as soon as the output or any
ingredient misses the snapshot; otherwise cost and popularity accumulate
over the ingredients in order and the derived fields are computed. -/
def evaluate_recipe (products : String → Option BazaarProduct)
    (recipe : CraftRecipe) : Option CraftProfit :=
  match products recipe.product_id with
  | Option.none => Option.none
  | some product =>
    (recipe.ingredients.foldlM (evalStep products)
        ((0 : ℚ), product.popularity)).map
      (fun tc =>
        let total_sell_price := product.sell_price * (recipe.output_amount : ℚ)
        let profit := total_sell_price - tc.1
        let roi : ℚ := if tc.1 ≤ 0 then 0 else profit / tc.1
        CraftProfit.mk recipe.product_id recipe.output_amount
          total_sell_price tc.1 profit roi tc.2)

/-- The total cost the evaluation loop accumulates, as a sum (lookup misses
contribute a zero price; the theorems only use this under the hypothesis
that every lookup hits). -/
def evalCostSum (products : String → Option BazaarProduct)
    (ings : List CraftIngredient) : ℚ :=
  (ings.map
    (fun ing =>
      ((products ing.product_id).elim 0 BazaarProduct.buy_price) *
        (ing.amount : ℚ))).sum

/-- The ingredient popularities the evaluation loop folds `min` over. -/
def evalPops (products : String → Option BazaarProduct)
    (ings : List CraftIngredient) : List Int :=
  ings.map (fun ing => (products ing.product_id).elim 0 BazaarProduct.popularity)

/-- The sort-key table of `rank_recipes`; an unrecognized key falls back to
profit.  Popularity is compared as a rational, which preserves the integer
order. -/
def sortKeyFn (sort_by : String) : CraftProfit → ℚ :=
  if sort_by = "profit" then CraftProfit.profit
  else if sort_by = "roi" then CraftProfit.roi
  else if sort_by = "popularity" then fun item => (item.popularity : ℚ)
  else CraftProfit.profit

/-- Stable descending insertion: the new element goes after every earlier
element with an equal or larger key. -/
def insertDescBy (key : CraftProfit → ℚ) (x : CraftProfit) :
    List CraftProfit → List CraftProfit
  | [] => [x]
  | y :: ys => if key x ≤ key y then y :: insertDescBy key x ys else x :: y :: ys

/-- Python's `list.sort(key=key, reverse=True)`: the unique stable
descending sort, realised as left-to-right stable insertion. -/
def sortDescBy (key : CraftProfit → ℚ) (l : List CraftProfit) :
    List CraftProfit :=
  l.foldl (fun acc x => insertDescBy key x acc) []

/-- Python's `l[:limit]` slice with an optional bound (`None` keeps the
whole list; a negative bound drops that many elements from the end). -/
def pySlice (l : List CraftProfit) (limit : Option Int) : List CraftProfit :=
  match limit with
  | Option.none => l
  | some n => if 0 ≤ n then l.take n.toNat else l.take (l.length - (-n).toNat)

/-- The filtering pass of `rank_recipes`: failed evaluations and
below-threshold results are dropped, in recipe order. -/
def rankFilter (products : String → Option BazaarProduct)
    (recipes : List CraftRecipe) (min_profit : ℚ) (min_popularity : Int) :
    List CraftProfit :=
  recipes.filterMap
    (fun r =>
      match evaluate_recipe products r with
      | Option.none => Option.none
      | some res =>
        if res.profit < min_profit then Option.none
        else if res.popularity < min_popularity then Option.none
        else some res)

/-- `BazaarAnalyzer.rank_recipes`: filter, stable-sort descending by the
selected key, then truncate. -/
def rank_recipes (products : String → Option BazaarProduct)
    (recipes : List CraftRecipe) (min_profit : ℚ) (min_popularity : Int)
    (limit : Option Int) (sort_by : String) : List CraftProfit :=
  pySlice
    (sortDescBy (sortKeyFn sort_by)
      (rankFilter products recipes min_profit min_popularity))
    limit

/-- The number of heap addresses not yet visited: the measure that shrinks
at every descent into a fresh in-range container. -/
def unv (h : Heap) (seen : Finset Nat) : Nat :=
  (Finset.range h.objs.length \ seen).card

/-- The total amount recorded for a key in a running-totals list (summing
duplicate keys, though `addAmount` never creates any). -/
def amountOf (m : List (String × Int)) (k : String) : Int :=
  ((m.filter (fun p => p.1 == k)).map Prod.snd).sum

/-- The total amount recorded for an identifier in a final ingredient
list. -/
def recipeAmount (l : List CraftIngredient) (k : String) : Int :=
  ((l.filter (fun i => i.product_id == k)).map CraftIngredient.amount).sum

/-- The concatenation of the pairs extracted from every non-`None`
candidate container, in scan order (the raw material the merge consumes). -/
def collectPairs (h : Heap) (entry : List (String × PyVal)) :
    List String → Option (List (String × Int))
  | [] => some []
  | ck :: ks =>
    if mget entry ck = PyVal.none then collectPairs h entry ks
    else
      (_extract_ingredient_container h (mget entry ck)).bind
        (fun ps => (collectPairs h entry ks).map (fun qs => ps ++ qs))

/-- All pairs extracted across all candidate containers, in scan order. -/
def containerPairs (h : Heap) (entry : List (String × PyVal)) :
    Option (List (String × Int)) :=
  collectPairs h entry containerKeys

/-- The sum, over the valid (non-empty id, positive amount) extracted pairs
whose identifier is `k`, of their amounts. -/
def validSumFor : List (String × Int) → String → Int
  | [], _ => 0
  | p :: ps, k =>
    (if (p.1 ≠ "" ∧ 0 < p.2) ∧ p.1 = k then p.2 else 0) + validSumFor ps k

/-- The amount one `key.items()` row adds to identifier `k`:
`amount_per_cell × occurrence_count` when the symbol occurs in the pattern
and the descriptor resolves to `k`, zero otherwise. -/
def overlayContribution (h : Heap) (rows : List PyVal) (p : String × PyVal)
    (k : String) : Int :=
  if p.1 = "" ∨ symCount rows p.1 = 0 then 0
  else
    match p.2 with
    | PyVal.ref b =>
      match h.get b with
      | PyObj.map ies =>
        let product_id := _coerce_product_id (idChainVal h ies)
        let amount := _coerce_int (keyAmountVal h ies) 0
        if product_id ≠ "" ∧ 0 < amount then
          (if product_id = k then amount * Int.ofNat (symCount rows p.1) else 0)
        else 0
      | _ => 0
    | _ => 0

/-- The total amount the shaped overlay adds to identifier `k` (zero when
the entry has no applicable `"key"`/`"pattern"` data). -/
def overlayAmount (h : Heap) (entry : List (String × PyVal)) (k : String) :
    Int :=
  match mget entry "key", patternRows h (mget entry "pattern") with
  | PyVal.ref a, some rows =>
    match h.get a with
    | PyObj.map kentries =>
      (kentries.map (fun p => overlayContribution h rows p k)).sum
    | _ => 0
  | _, _ => 0

/-- Whether the shaped overlay applies to an entry: a `"key"` mapping
together with a `"pattern"` sequence. -/
def overlayApplicable (h : Heap) (entry : List (String × PyVal)) : Bool :=
  match mget entry "key", patternRows h (mget entry "pattern") with
  | PyVal.ref a, some _ =>
    match h.get a with
    | PyObj.map _ => true
    | _ => false
  | _, _ => false

/-- An ingredient container that is absent (`None`) or an empty
mapping/sequence. -/
def emptyOrAbsentContainer (h : Heap) (v : PyVal) : Bool :=
  match v with
  | PyVal.none => true
  | PyVal.ref a =>
    match h.get a with
    | PyObj.map es => es.isEmpty
    | PyObj.seq es => es.isEmpty
  | _ => false

/-- Counterexample entry for the container-sum claim: the same ingredient
arrives once through `"input"` (amount 5) and once more through the shaped
overlay (amount 5 × one cell). -/
def c2Heap : Heap :=
  { objs :=
      [PyObj.seq [PyVal.ref 1],
        PyObj.map [("item", PyVal.str "A"), ("amount", PyVal.int 5)],
        PyObj.map [("X", PyVal.ref 3)],
        PyObj.map [("item", PyVal.str "A"), ("amount", PyVal.int 5)],
        PyObj.seq [PyVal.str "X"]] }

def c2Entry : List (String × PyVal) :=
  [("input", PyVal.ref 0), ("key", PyVal.ref 2), ("pattern", PyVal.ref 4)]

/-- Fixture: an ingredient with amount 160 in `"input"` and nowhere else. -/
def ex160Heap : Heap :=
  { objs :=
      [PyObj.seq [PyVal.ref 1],
        PyObj.map [("item", PyVal.str "CARROT_ITEM"),
          ("amount", PyVal.int 160)]] }

def ex160Entry : List (String × PyVal) := [("input", PyVal.ref 0)]

/-- Fixture: the same ingredient with amount 5 in `"input"` and amount 3 in
`"items"`. -/
def ex53Heap : Heap :=
  { objs :=
      [PyObj.seq [PyVal.ref 1],
        PyObj.map [("item", PyVal.str "A"), ("amount", PyVal.int 5)],
        PyObj.seq [PyVal.ref 3],
        PyObj.map [("item", PyVal.str "A"), ("amount", PyVal.int 3)]] }

def ex53Entry : List (String × PyVal) :=
  [("input", PyVal.ref 0), ("items", PyVal.ref 2)]

/-- Fixture: container amount 2 plus overlay 1 × 3 cells for the same
identifier. -/
def c3MixHeap : Heap :=
  { objs :=
      [PyObj.seq [PyVal.ref 1],
        PyObj.map [("item", PyVal.str "A"), ("amount", PyVal.int 2)],
        PyObj.map [("X", PyVal.ref 3)],
        PyObj.map [("item", PyVal.str "A"), ("amount", PyVal.int 1)],
        PyObj.seq [PyVal.str "XX", PyVal.str " X"]] }

def c3MixEntry : List (String × PyVal) :=
  [("input", PyVal.ref 0), ("key", PyVal.ref 2), ("pattern", PyVal.ref 4)]

/-- Fixture: a mapping that parses as itself an ingredient while also
holding a nested valid ingredient mapping — the nested one must not be
emitted. -/
def c4Heap : Heap :=
  { objs :=
      [PyObj.map [("item", PyVal.str "A"), ("amount", PyVal.int 1),
          ("nested", PyVal.ref 1)],
        PyObj.map [("item", PyVal.str "B"), ("amount", PyVal.int 2)]] }

/-- Fixture entry with every candidate ingredient container absent but a
shaped `"key"`/`"pattern"` overlay present (and a top-level `"name"` for
the output fallback). -/
def c5Heap : Heap :=
  { objs :=
      [PyObj.seq [PyVal.ref 1],
        PyObj.map [("name", PyVal.str "X"), ("key", PyVal.ref 2),
          ("pattern", PyVal.ref 4)],
        PyObj.map [("A", PyVal.ref 3)],
        PyObj.map [("item", PyVal.str "S"), ("amount", PyVal.int 1)],
        PyObj.seq [PyVal.str "A"]] }

def c5Entry : List (String × PyVal) :=
  [("name", PyVal.str "X"), ("key", PyVal.ref 2), ("pattern", PyVal.ref 4)]

/-- The invariants every recipe emitted by the normalizer satisfies (and
exactly what lossless canonical serialisation needs). -/
def GoodRecipe (r : CraftRecipe) : Prop :=
  r.product_id ≠ "" ∧ r.ingredients ≠ [] ∧
    ∀ i ∈ r.ingredients, i.product_id ≠ ""

/-- Evaluation fixture: output OUT sells at 600, ingredient IN buys at
400 (the spec's worked example). -/
def wOut : BazaarProduct := BazaarProduct.mk "OUT" 600 0 10 20

def wIn : BazaarProduct := BazaarProduct.mk "IN" 0 400 5 6

def wProducts (s : String) : Option BazaarProduct :=
  if s = "OUT" then some wOut else if s = "IN" then some wIn else Option.none

def wRecipe : CraftRecipe := CraftRecipe.mk "OUT" 1 [CraftIngredient.mk "IN" 1]

def wRes : CraftProfit := CraftProfit.mk "OUT" 1 600 400 200 (1 / 2) 11

/-- Ranking fixture mirroring the repository's `test_rank_recipes` data. -/
def aProdA : BazaarProduct := BazaarProduct.mk "A" 600 90 1000 900

def aProdB : BazaarProduct := BazaarProduct.mk "B" 500 400 2000 1500

def aProdC : BazaarProduct := BazaarProduct.mk "C" 250 100 1000 1000

def aProducts (s : String) : Option BazaarProduct :=
  if s = "A" then some aProdA
  else if s = "B" then some aProdB
  else if s = "C" then some aProdC
  else Option.none

def aRecipes : List CraftRecipe :=
  [CraftRecipe.mk "A" 1 [CraftIngredient.mk "B" 1],
    CraftRecipe.mk "C" 1 [CraftIngredient.mk "A" 1],
    CraftRecipe.mk "B" 1 [CraftIngredient.mk "C" 1]]

def aResA : CraftProfit := CraftProfit.mk "A" 1 600 400 200 (1 / 2) 1900

def aResB : CraftProfit := CraftProfit.mk "B" 1 500 100 400 4 2000

def aResC : CraftProfit := CraftProfit.mk "C" 1 250 90 160 (160 / 90) 1900

theorem unv_anti (h : Heap) {s t : Finset Nat} (hst : s ⊆ t) :
    unv h t ≤ unv h s :=
  Finset.card_le_card (Finset.sdiff_subset_sdiff (Finset.Subset.refl _) hst)

theorem unv_insert (h : Heap) {a : Nat} {seen : Finset Nat}
    (ha : a < h.objs.length) (hns : a ∉ seen) :
    unv h (insert a seen) + 1 ≤ unv h seen := by
  have hmem : a ∈ Finset.range h.objs.length \ seen :=
    Finset.mem_sdiff.2 ⟨Finset.mem_range.2 ha, hns⟩
  have hcard := Finset.card_erase_of_mem hmem
  have hpos : 0 < (Finset.range h.objs.length \ seen).card :=
    Finset.card_pos.2 ⟨a, hmem⟩
  show (Finset.range h.objs.length \ insert a seen).card + 1 ≤
    (Finset.range h.objs.length \ seen).card
  rw [Finset.sdiff_insert, hcard]
  omega

theorem unv_insert_le (h : Heap) {a : Nat} {seen : Finset Nat} :
    unv h (insert a seen) ≤ unv h seen :=
  unv_anti h (Finset.subset_insert a seen)

theorem Heap.get_out (h : Heap) {a : Nat} (ha : h.objs.length ≤ a) :
    h.get a = PyObj.seq [] := by
  unfold Heap.get
  exact List.getD_eq_default _ _ ha

theorem extractChildren_nil
    (step : PyVal → Finset Nat → Option (List (String × Int) × Finset Nat))
    (seen : Finset Nat) : extractChildren step [] seen = some ([], seen) :=
  rfl

theorem extractChildren_cons
    (step : PyVal → Finset Nat → Option (List (String × Int) × Finset Nat))
    (v : PyVal) (vs : List PyVal) (seen : Finset Nat) :
    extractChildren step (v :: vs) seen =
      (step v seen).bind
        (fun r =>
          (extractChildren step vs r.2).map (fun r2 => (r.1 ++ r2.1, r2.2))) :=
  rfl

theorem inner_scalar (h : Heap) (f : Nat) (v : PyVal) (seen : Finset Nat)
    (hv : ∀ a, v ≠ PyVal.ref a) :
    _extract_ingredient_container_inner h (f + 1) v seen = some ([], seen) := by
  cases v with
  | ref a => exact absurd rfl (hv a)
  | none => rfl
  | str s => rfl
  | int n => rfl
  | bool b => rfl

theorem inner_ref_mem (h : Heap) (f : Nat) (a : Nat) (seen : Finset Nat)
    (hmem : a ∈ seen) :
    _extract_ingredient_container_inner h (f + 1) (PyVal.ref a) seen =
      some ([], seen) := by
  simp only [_extract_ingredient_container_inner]
  rw [if_pos hmem]

theorem inner_ref_map_valid (h : Heap) (f : Nat) (a : Nat) (seen : Finset Nat)
    (es : List (String × PyVal)) (hmem : a ∉ seen) (hget : h.get a = PyObj.map es)
    (hvalid : _coerce_product_id (idChainVal h es) ≠ "" ∧
      0 < _coerce_int (innerAmountVal h es) 0) :
    _extract_ingredient_container_inner h (f + 1) (PyVal.ref a) seen =
      some
        ([(_coerce_product_id (idChainVal h es),
            _coerce_int (innerAmountVal h es) 0)],
          insert a seen) := by
  simp only [_extract_ingredient_container_inner]
  rw [if_neg hmem, hget]
  simp only [if_pos hvalid]

theorem inner_ref_map_invalid (h : Heap) (f : Nat) (a : Nat) (seen : Finset Nat)
    (es : List (String × PyVal)) (hmem : a ∉ seen) (hget : h.get a = PyObj.map es)
    (hvalid : ¬ (_coerce_product_id (idChainVal h es) ≠ "" ∧
      0 < _coerce_int (innerAmountVal h es) 0)) :
    _extract_ingredient_container_inner h (f + 1) (PyVal.ref a) seen =
      extractChildren (fun w s => _extract_ingredient_container_inner h f w s)
        (es.map Prod.snd) (insert a seen) := by
  simp only [_extract_ingredient_container_inner]
  rw [if_neg hmem, hget]
  simp only [if_neg hvalid]

theorem inner_ref_seq (h : Heap) (f : Nat) (a : Nat) (seen : Finset Nat)
    (es : List PyVal) (hmem : a ∉ seen) (hget : h.get a = PyObj.seq es) :
    _extract_ingredient_container_inner h (f + 1) (PyVal.ref a) seen =
      extractChildren (fun w s => _extract_ingredient_container_inner h f w s)
        es (insert a seen) := by
  simp only [_extract_ingredient_container_inner]
  rw [if_neg hmem, hget]

theorem extractChildren_mono
    (step : PyVal → Finset Nat → Option (List (String × Int) × Finset Nat))
    (hstep : ∀ v s ps s', step v s = some (ps, s') → s ⊆ s') :
    ∀ (vs : List PyVal) (seen : Finset Nat) (ps : List (String × Int))
      (s' : Finset Nat),
      extractChildren step vs seen = some (ps, s') → seen ⊆ s' := by
  intro vs
  induction vs with
  | nil =>
    intro seen ps s' hres
    rw [extractChildren_nil] at hres
    simp only [Option.some.injEq, Prod.mk.injEq] at hres
    exact hres.2 ▸ Finset.Subset.refl _
  | cons v vs ih =>
    intro seen ps s' hres
    rw [extractChildren_cons] at hres
    cases hv : step v seen with
    | none => rw [hv] at hres; exact absurd hres (by simp)
    | some r =>
      rw [hv] at hres
      simp only [Option.some_bind] at hres
      cases hrest : extractChildren step vs r.2 with
      | none => rw [hrest] at hres; exact absurd hres (by simp)
      | some r2 =>
        rw [hrest] at hres
        simp only [Option.map_some', Option.some.injEq, Prod.mk.injEq] at hres
        have h1 : seen ⊆ r.2 := hstep v seen r.1 r.2 (by rw [hv])
        have h2 : r.2 ⊆ r2.2 := ih r.2 r2.1 r2.2 (by rw [hrest])
        exact hres.2 ▸ Finset.Subset.trans h1 h2

theorem inner_mono (h : Heap) :
    ∀ (f : Nat) (v : PyVal) (seen : Finset Nat) (ps : List (String × Int))
      (s' : Finset Nat),
      _extract_ingredient_container_inner h f v seen = some (ps, s') →
      seen ⊆ s' := by
  intro f
  induction f with
  | zero =>
    intro v seen ps s' hres
    exact absurd hres (by simp [_extract_ingredient_container_inner])
  | succ f ih =>
    intro v seen ps s' hres
    cases v with
    | ref a =>
      by_cases hmem : a ∈ seen
      · rw [inner_ref_mem h f a seen hmem] at hres
        simp only [Option.some.injEq, Prod.mk.injEq] at hres
        exact hres.2 ▸ Finset.Subset.refl _
      · have hsub : seen ⊆ insert a seen := Finset.subset_insert a seen
        cases hget : h.get a with
        | map es =>
          by_cases hvalid :
              _coerce_product_id (idChainVal h es) ≠ "" ∧
                0 < _coerce_int (innerAmountVal h es) 0
          · rw [inner_ref_map_valid h f a seen es hmem hget hvalid] at hres
            simp only [Option.some.injEq, Prod.mk.injEq] at hres
            exact hres.2 ▸ hsub
          · rw [inner_ref_map_invalid h f a seen es hmem hget hvalid] at hres
            exact Finset.Subset.trans hsub
              (extractChildren_mono _ (fun v s ps s' hr => ih v s ps s' hr)
                _ _ _ _ hres)
        | seq es =>
          rw [inner_ref_seq h f a seen es hmem hget] at hres
          exact Finset.Subset.trans hsub
            (extractChildren_mono _ (fun v s ps s' hr => ih v s ps s' hr)
              _ _ _ _ hres)
    | none =>
      rw [inner_scalar h f _ seen (by intro a; simp)] at hres
      simp only [Option.some.injEq, Prod.mk.injEq] at hres
      exact hres.2 ▸ Finset.Subset.refl _
    | str s =>
      rw [inner_scalar h f _ seen (by intro a; simp)] at hres
      simp only [Option.some.injEq, Prod.mk.injEq] at hres
      exact hres.2 ▸ Finset.Subset.refl _
    | int n =>
      rw [inner_scalar h f _ seen (by intro a; simp)] at hres
      simp only [Option.some.injEq, Prod.mk.injEq] at hres
      exact hres.2 ▸ Finset.Subset.refl _
    | bool b =>
      rw [inner_scalar h f _ seen (by intro a; simp)] at hres
      simp only [Option.some.injEq, Prod.mk.injEq] at hres
      exact hres.2 ▸ Finset.Subset.refl _

theorem extractChildren_progress (h : Heap) (f : Nat)
    (step : PyVal → Finset Nat → Option (List (String × Int) × Finset Nat))
    (hmono : ∀ v s ps s', step v s = some (ps, s') → s ⊆ s')
    (hprog : ∀ v s, unv h s + 1 ≤ f → ∃ r, step v s = some r) :
    ∀ (vs : List PyVal) (seen : Finset Nat), unv h seen + 1 ≤ f →
      ∃ ps s', extractChildren step vs seen = some (ps, s') ∧ seen ⊆ s' := by
  intro vs
  induction vs with
  | nil =>
    intro seen _
    exact ⟨[], seen, extractChildren_nil step seen, Finset.Subset.refl _⟩
  | cons v vs ih =>
    intro seen hb
    obtain ⟨r, hr⟩ := hprog v seen hb
    have hs1 : seen ⊆ r.2 := hmono v seen r.1 r.2 (by rw [hr])
    have hb1 : unv h r.2 + 1 ≤ f :=
      le_trans (Nat.add_le_add_right (unv_anti h hs1) 1) hb
    obtain ⟨ps2, s2, heq2, hsub2⟩ := ih r.2 hb1
    refine ⟨r.1 ++ ps2, s2, ?_, Finset.Subset.trans hs1 hsub2⟩
    rw [extractChildren_cons, hr]
    simp only [Option.some_bind, heq2, Option.map_some']

theorem inner_progress (h : Heap) :
    ∀ (f : Nat) (v : PyVal) (seen : Finset Nat), unv h seen + 1 ≤ f →
      ∃ ps s',
        _extract_ingredient_container_inner h f v seen = some (ps, s') ∧
          seen ⊆ s' := by
  intro f
  induction f with
  | zero => intro v seen hb; omega
  | succ f ih =>
    intro v seen hb
    cases v with
    | ref a =>
      by_cases hmem : a ∈ seen
      · exact ⟨[], seen, inner_ref_mem h f a seen hmem, Finset.Subset.refl _⟩
      · have hsub : seen ⊆ insert a seen := Finset.subset_insert a seen
        by_cases hlt : a < h.objs.length
        · have hb' : unv h (insert a seen) + 1 ≤ f := by
            have := unv_insert h hlt hmem
            omega
          cases hget : h.get a with
          | map es =>
            by_cases hvalid :
                _coerce_product_id (idChainVal h es) ≠ "" ∧
                  0 < _coerce_int (innerAmountVal h es) 0
            · exact ⟨_, insert a seen,
                inner_ref_map_valid h f a seen es hmem hget hvalid, hsub⟩
            · obtain ⟨ps, s', heq, hsub'⟩ :=
                extractChildren_progress h f _
                  (fun v s ps s' hr => inner_mono h f v s ps s' hr)
                  (fun v s hbs => by
                    obtain ⟨ps, s', heq, _⟩ := ih v s hbs
                    exact ⟨(ps, s'), heq⟩)
                  (es.map Prod.snd) (insert a seen) hb'
              exact ⟨ps, s',
                by rw [inner_ref_map_invalid h f a seen es hmem hget hvalid, heq],
                Finset.Subset.trans hsub hsub'⟩
          | seq es =>
            obtain ⟨ps, s', heq, hsub'⟩ :=
              extractChildren_progress h f _
                (fun v s ps s' hr => inner_mono h f v s ps s' hr)
                (fun v s hbs => by
                  obtain ⟨ps, s', heq, _⟩ := ih v s hbs
                  exact ⟨(ps, s'), heq⟩)
                es (insert a seen) hb'
            exact ⟨ps, s',
              by rw [inner_ref_seq h f a seen es hmem hget, heq],
              Finset.Subset.trans hsub hsub'⟩
        · have hget : h.get a = PyObj.seq [] :=
            Heap.get_out h (Nat.le_of_not_lt hlt)
          exact ⟨[], insert a seen,
            by rw [inner_ref_seq h f a seen [] hmem hget,
              extractChildren_nil], hsub⟩
    | none =>
      exact ⟨[], seen, inner_scalar h f _ seen (by intro a; simp),
        Finset.Subset.refl _⟩
    | str s =>
      exact ⟨[], seen, inner_scalar h f _ seen (by intro a; simp),
        Finset.Subset.refl _⟩
    | int n =>
      exact ⟨[], seen, inner_scalar h f _ seen (by intro a; simp),
        Finset.Subset.refl _⟩
    | bool b =>
      exact ⟨[], seen, inner_scalar h f _ seen (by intro a; simp),
        Finset.Subset.refl _⟩

theorem unv_empty (h : Heap) : unv h ∅ = h.objs.length := by
  show (Finset.range h.objs.length \ ∅).card = h.objs.length
  rw [Finset.sdiff_empty, Finset.card_range]

theorem inner_isSome_enough (h : Heap) (v : PyVal) (seen : Finset Nat)
    (hb : unv h seen + 1 ≤ enoughFuel h) :
    (_extract_ingredient_container_inner h (enoughFuel h) v seen).isSome := by
  obtain ⟨ps, s', heq, _⟩ := inner_progress h (enoughFuel h) v seen hb
  rw [heq]; rfl

theorem extract_container_total (h : Heap) (v : PyVal) :
    ∃ ps, _extract_ingredient_container h v = some ps := by
  have hb : unv h ∅ + 1 ≤ enoughFuel h := by
    rw [unv_empty]; exact Nat.le.refl
  obtain ⟨ps, s', heq, _⟩ := inner_progress h (enoughFuel h) v ∅ hb
  exact ⟨ps, by rw [_extract_ingredient_container, heq]; rfl⟩

theorem extract_container_isSome (h : Heap) (v : PyVal) :
    (_extract_ingredient_container h v).isSome := by
  obtain ⟨ps, hps⟩ := extract_container_total h v
  rw [hps]; rfl

theorem foldlM_option_isSome {α β : Type} (g : β → α → Option β)
    (hg : ∀ b a, (g b a).isSome) :
    ∀ (l : List α) (b : β), (List.foldlM g b l).isSome := by
  intro l
  induction l with
  | nil => intro b; rfl
  | cons a l ih =>
    intro b
    have hga := hg b a
    cases hba : g b a with
    | none => rw [hba] at hga; exact absurd hga (by simp)
    | some b' =>
      simp only [List.foldlM, hba, Option.some_bind]
      exact ih b'

theorem scanContainers_isSome (h : Heap) (entry : List (String × PyVal)) :
    ∀ (ks : List String) (m : List (String × Int)),
      (scanContainers h entry ks m).isSome := by
  intro ks
  induction ks with
  | nil => intro m; rfl
  | cons ck ks ih =>
    intro m
    rw [scanContainers]
    by_cases hk : mget entry ck = PyVal.none
    · rw [if_pos hk]; exact ih m
    · rw [if_neg hk]
      obtain ⟨ps, hps⟩ := extract_container_total h (mget entry ck)
      rw [hps, Option.some_bind]
      exact ih (mergePairs m ps)

theorem containerScan_isSome (h : Heap) (entry : List (String × PyVal)) :
    (containerScan h entry).isSome :=
  scanContainers_isSome h entry containerKeys []

theorem _extract_ingredients_isSome (h : Heap) (entry : List (String × PyVal)) :
    (_extract_ingredients h entry).isSome := by
  rw [_extract_ingredients]
  have := containerScan_isSome h entry
  cases hs : containerScan h entry with
  | none => rw [hs] at this; exact absurd this (by simp)
  | some m => rfl

theorem parseHypixelEntry_isSome (h : Heap) (acc : List CraftRecipe)
    (ev : PyVal) : (parseHypixelEntry h acc ev).isSome := by
  cases ev with
  | ref a =>
    cases hget : h.get a with
    | map es =>
      simp only [parseHypixelEntry, hget]
      by_cases hpid : (_extract_output h es).1 = ""
      · rw [if_pos hpid]; rfl
      · rw [if_neg hpid]
        have := _extract_ingredients_isSome h es
        cases hi : _extract_ingredients h es with
        | none => rw [hi] at this; exact absurd this (by simp)
        | some ings => rfl
    | seq es => simp only [parseHypixelEntry, hget]; rfl
  | none => rfl
  | str s => rfl
  | int n => rfl
  | bool b => rfl

theorem _parse_hypixel_payload_isSome (h : Heap) (data : PyVal) :
    (_parse_hypixel_payload h data).isSome :=
  foldlM_option_isSome (parseHypixelEntry h)
    (fun acc ev => parseHypixelEntry_isSome h acc ev) (hypixelEntries h data) []

theorem amountOf_nil (k : String) : amountOf [] k = 0 := rfl

theorem amountOf_cons (p : String × Int) (m : List (String × Int))
    (k : String) :
    amountOf (p :: m) k = (if p.1 = k then p.2 else 0) + amountOf m k := by
  by_cases hpk : p.1 = k
  · simp [amountOf, List.filter_cons, hpk]
  · simp [amountOf, List.filter_cons, hpk]

theorem amountOf_addAmount :
    ∀ (m : List (String × Int)) (k' : String) (v : Int) (k : String),
      amountOf (addAmount m k' v) k =
        amountOf m k + (if k' = k then v else 0) := by
  intro m k' v
  induction m with
  | nil =>
    intro k
    rw [addAmount, amountOf_cons, amountOf_nil]
    split_ifs <;> omega
  | cons p m ih =>
    intro k
    rw [addAmount]
    by_cases hp : p.1 = k'
    · rw [if_pos hp, amountOf_cons, amountOf_cons]
      by_cases hk : p.1 = k
      · rw [if_pos hk, if_pos hk, if_pos (hp.symm.trans hk)]
        omega
      · rw [if_neg hk, if_neg hk, if_neg (fun hkk => hk (hp.trans hkk))]
        omega
    · rw [if_neg hp, amountOf_cons, amountOf_cons, ih k]
      omega

theorem mergePairs_nil (m : List (String × Int)) : mergePairs m [] = m := rfl

theorem mergePairs_cons (m : List (String × Int)) (p : String × Int)
    (ps : List (String × Int)) :
    mergePairs m (p :: ps) =
      mergePairs (if p.1 ≠ "" ∧ 0 < p.2 then addAmount m p.1 p.2 else m) ps :=
  rfl

theorem mergePairs_append (m ps qs : List (String × Int)) :
    mergePairs m (ps ++ qs) = mergePairs (mergePairs m ps) qs :=
  List.foldl_append _ _ _ _

theorem validSumFor_nil (k : String) : validSumFor [] k = 0 := rfl

theorem validSumFor_cons (p : String × Int) (ps : List (String × Int))
    (k : String) :
    validSumFor (p :: ps) k =
      (if (p.1 ≠ "" ∧ 0 < p.2) ∧ p.1 = k then p.2 else 0) +
        validSumFor ps k :=
  rfl

theorem validSumFor_append :
    ∀ (ps qs : List (String × Int)) (k : String),
      validSumFor (ps ++ qs) k = validSumFor ps k + validSumFor qs k := by
  intro ps
  induction ps with
  | nil => intro qs k; rw [List.nil_append, validSumFor_nil]; omega
  | cons p ps ih =>
    intro qs k
    rw [List.cons_append, validSumFor_cons, validSumFor_cons, ih]
    omega

theorem amountOf_mergePairs :
    ∀ (ps m : List (String × Int)) (k : String),
      amountOf (mergePairs m ps) k = amountOf m k + validSumFor ps k := by
  intro ps
  induction ps with
  | nil =>
    intro m k
    rw [mergePairs_nil, validSumFor_nil]
    omega
  | cons p ps ih =>
    intro m k
    rw [mergePairs_cons, validSumFor_cons, ih]
    by_cases hval : p.1 ≠ "" ∧ 0 < p.2
    · rw [if_pos hval, amountOf_addAmount]
      by_cases hk : p.1 = k
      · rw [if_pos hk, if_pos ⟨hval, hk⟩]
        omega
      · rw [if_neg hk, if_neg (fun hc => hk hc.2)]
        omega
    · rw [if_neg hval, if_neg (fun hc => hval hc.1)]
      omega

theorem scanContainers_eq (h : Heap) (entry : List (String × PyVal)) :
    ∀ (ks : List String) (m : List (String × Int)),
      scanContainers h entry ks m =
        (collectPairs h entry ks).map (fun ps => mergePairs m ps) := by
  intro ks
  induction ks with
  | nil =>
    intro m
    rw [scanContainers, collectPairs, Option.map_some', mergePairs_nil]
  | cons ck ks ih =>
    intro m
    rw [scanContainers, collectPairs]
    by_cases hck : mget entry ck = PyVal.none
    · rw [if_pos hck, if_pos hck]
      exact ih m
    · rw [if_neg hck, if_neg hck]
      cases hx : _extract_ingredient_container h (mget entry ck) with
      | none => rfl
      | some ps0 =>
        rw [Option.some_bind, Option.some_bind, ih (mergePairs m ps0)]
        cases collectPairs h entry ks with
        | none => rfl
        | some qs =>
          rw [Option.map_some', Option.map_some', Option.map_some',
            mergePairs_append]

theorem containerScan_eq (h : Heap) (entry : List (String × PyVal)) :
    containerScan h entry =
      (containerPairs h entry).map (fun ps => mergePairs [] ps) :=
  scanContainers_eq h entry containerKeys []

theorem amountOf_overlayStep (h : Heap) (rows : List PyVal)
    (m : List (String × Int)) (p : String × PyVal) (k : String) :
    amountOf (overlayStep h rows m p) k =
      amountOf m k + overlayContribution h rows p k := by
  unfold overlayStep overlayContribution
  by_cases h0 : p.1 = "" ∨ symCount rows p.1 = 0
  · rw [if_pos h0, if_pos h0]
    omega
  · rw [if_neg h0, if_neg h0]
    cases p.2 with
    | ref b =>
      dsimp only
      cases hget : h.get b with
      | map ies =>
        dsimp only
        by_cases hv :
            _coerce_product_id (idChainVal h ies) ≠ "" ∧
              0 < _coerce_int (keyAmountVal h ies) 0
        · rw [if_pos hv, if_pos hv, amountOf_addAmount]
        · rw [if_neg hv, if_neg hv]
          omega
      | seq es => dsimp only; omega
    | none => dsimp only; omega
    | str s => dsimp only; omega
    | int n => dsimp only; omega
    | bool b => dsimp only; omega

theorem amountOf_overlayFold (h : Heap) (rows : List PyVal) :
    ∀ (kentries : List (String × PyVal)) (m : List (String × Int))
      (k : String),
      amountOf (kentries.foldl (overlayStep h rows) m) k =
        amountOf m k +
          (kentries.map (fun p => overlayContribution h rows p k)).sum := by
  intro kentries
  induction kentries with
  | nil => intro m k; simp
  | cons p ks ih =>
    intro m k
    simp only [List.foldl_cons, List.map_cons, List.sum_cons]
    rw [ih, amountOf_overlayStep]
    omega

theorem amountOf_applyOverlay (h : Heap) (entry : List (String × PyVal))
    (m : List (String × Int)) (k : String) :
    amountOf (applyOverlay h entry m) k =
      amountOf m k + overlayAmount h entry k := by
  unfold applyOverlay overlayAmount
  cases hkey : mget entry "key" with
  | ref a =>
    cases hpat : patternRows h (mget entry "pattern") with
    | none => dsimp only; omega
    | some rows =>
      cases hget : h.get a with
      | map kentries =>
        dsimp only
        rw [hget]
        exact amountOf_overlayFold h rows kentries m k
      | seq es => dsimp only; rw [hget]; dsimp only; omega
  | none => cases patternRows h (mget entry "pattern") <;> dsimp only <;> omega
  | str s => cases patternRows h (mget entry "pattern") <;> dsimp only <;> omega
  | int n => cases patternRows h (mget entry "pattern") <;> dsimp only <;> omega
  | bool b => cases patternRows h (mget entry "pattern") <;> dsimp only <;> omega

theorem recipeAmount_nil (k : String) : recipeAmount [] k = 0 := rfl

theorem recipeAmount_cons (i : CraftIngredient) (l : List CraftIngredient)
    (k : String) :
    recipeAmount (i :: l) k =
      (if i.product_id = k then i.amount else 0) + recipeAmount l k := by
  by_cases hik : i.product_id = k
  · simp [recipeAmount, List.filter_cons, hik]
  · simp [recipeAmount, List.filter_cons, hik]

theorem recipeAmount_map :
    ∀ (m : List (String × Int)) (k : String),
      recipeAmount (m.map (fun p => CraftIngredient.mk p.1 p.2)) k =
        amountOf m k := by
  intro m
  induction m with
  | nil => intro k; rfl
  | cons p m ih =>
    intro k
    simp only [List.map_cons]
    rw [recipeAmount_cons, amountOf_cons, ih]

theorem extract_amount (h : Heap) (entry : List (String × PyVal))
    (l : List CraftIngredient) (ps : List (String × Int)) (k : String)
    (hl : _extract_ingredients h entry = some l)
    (hps : containerPairs h entry = some ps) :
    recipeAmount l k = validSumFor ps k + overlayAmount h entry k := by
  rw [_extract_ingredients, containerScan_eq, hps] at hl
  simp only [Option.map_some', Option.some.injEq] at hl
  subst hl
  rw [recipeAmount_map, amountOf_applyOverlay, amountOf_mergePairs]
  rw [amountOf_nil]
  omega

theorem overlayAmount_applicable (h : Heap) (entry : List (String × PyVal))
    (a : Nat) (kentries : List (String × PyVal)) (rows : List PyVal)
    (k : String) (hkey : mget entry "key" = PyVal.ref a)
    (hget : Heap.get h a = PyObj.map kentries)
    (hpat : patternRows h (mget entry "pattern") = some rows) :
    overlayAmount h entry k =
      (kentries.map (fun p => overlayContribution h rows p k)).sum := by
  unfold overlayAmount
  rw [hkey, hpat]
  dsimp only
  rw [hget]

/-- C2 counterexample: an entry whose `"input"` container contributes 5 to
an identifier while the shaped `"key"`/`"pattern"` overlay contributes 5
more.  The final recorded amount is 10, but the sum of the valid pairs
extracted across the candidate containers is 5 — so the final amount does
not equal the container sum alone. -/
theorem ingredient_container_sum_counterexample :
    _extract_ingredients c2Heap c2Entry = some [CraftIngredient.mk "A" 10]
    ∧ containerPairs c2Heap c2Entry = some [("A", 5)]
    ∧ recipeAmount [CraftIngredient.mk "A" 10] "A" ≠
        validSumFor [("A", 5)] "A" :=
  ⟨by decide, by decide, by decide⟩

/-- C2 (amended): for every raw entry, the final amount recorded for each
`item_id` equals the sum of the amounts of every valid (non-empty id,
positive amount) pair extracted across all candidate ingredient containers
*plus* the shaped `"key"`/`"pattern"` overlay contribution (which is zero
when the entry has no applicable overlay); invalid pairs contribute
nothing.  In particular an ingredient with amount 160 in `"input"` and
nowhere else yields exactly 160, and one appearing in two candidate
containers with amounts 5 and 3 yields 8. -/
theorem ingredient_merge_sum :
    (∀ (h : Heap) (entry : List (String × PyVal)) (l : List CraftIngredient)
        (ps : List (String × Int)) (k : String),
      _extract_ingredients h entry = some l →
      containerPairs h entry = some ps →
      recipeAmount l k = validSumFor ps k + overlayAmount h entry k)
    ∧ _extract_ingredients ex160Heap ex160Entry =
        some [CraftIngredient.mk "CARROT_ITEM" 160]
    ∧ _extract_ingredients ex53Heap ex53Entry =
        some [CraftIngredient.mk "A" 8] :=
  ⟨fun h entry l ps k hl hps => extract_amount h entry l ps k hl hps,
    by decide, by decide⟩

theorem ingredient_merge_sum_witness :
    _extract_ingredients ex53Heap ex53Entry = some [CraftIngredient.mk "A" 8]
    ∧ containerPairs ex53Heap ex53Entry = some [("A", 5), ("A", 3)]
    ∧ recipeAmount [CraftIngredient.mk "A" 8] "A" =
        validSumFor [("A", 5), ("A", 3)] "A" +
          overlayAmount ex53Heap ex53Entry "A" :=
  ⟨by decide, by decide,
    ingredient_merge_sum.1 ex53Heap ex53Entry [CraftIngredient.mk "A" 8]
      [("A", 5), ("A", 3)] "A" (by decide) (by decide)⟩

/-- C3: for every raw entry with a `"key"` mapping and a `"pattern"`
sequence, the final amount for each identifier is the container-scan sum
plus, for each symbol row of the key, `amount_per_cell × occurrence_count`
when the symbol occurs (non-whitespace) in the pattern and its descriptor
resolves — summed with the container totals, not replacing them.  The
occurrence count of `"X"` in `["XX", " X"]` is 3; the repository's shaped
fixture yields STRING with amount 15; and container amount 2 plus overlay
1 × 3 yields 5 for the same identifier. -/
theorem shaped_overlay :
    (∀ (h : Heap) (entry : List (String × PyVal)) (a : Nat)
        (kentries : List (String × PyVal)) (rows : List PyVal)
        (l : List CraftIngredient) (ps : List (String × Int)) (k : String),
      mget entry "key" = PyVal.ref a →
      Heap.get h a = PyObj.map kentries →
      patternRows h (mget entry "pattern") = some rows →
      _extract_ingredients h entry = some l →
      containerPairs h entry = some ps →
      recipeAmount l k =
        validSumFor ps k +
          (kentries.map (fun p => overlayContribution h rows p k)).sum)
    ∧ symCount [PyVal.str "XX", PyVal.str " X"] "X" = 3
    ∧ _extract_ingredients shapedHeap
        [("output", PyVal.ref 2), ("pattern", PyVal.ref 3),
          ("key", PyVal.ref 4)] =
        some [CraftIngredient.mk "STRING" 15]
    ∧ _extract_ingredients c3MixHeap c3MixEntry =
        some [CraftIngredient.mk "A" 5] :=
  ⟨fun h entry a kentries rows l ps k hkey hget hpat hl hps =>
    (extract_amount h entry l ps k hl hps).trans
      (by rw [overlayAmount_applicable h entry a kentries rows k hkey hget hpat]),
    by decide, by decide, by decide⟩

theorem shaped_overlay_witness :
    mget c3MixEntry "key" = PyVal.ref 2
    ∧ Heap.get c3MixHeap 2 = PyObj.map [("X", PyVal.ref 3)]
    ∧ patternRows c3MixHeap (mget c3MixEntry "pattern") =
        some [PyVal.str "XX", PyVal.str " X"]
    ∧ recipeAmount [CraftIngredient.mk "A" 5] "A" =
        validSumFor [("A", 2)] "A" +
          ([("X", PyVal.ref 3)].map
            (fun p =>
              overlayContribution c3MixHeap [PyVal.str "XX", PyVal.str " X"]
                p "A")).sum :=
  ⟨by decide, by decide, by decide,
    shaped_overlay.1 c3MixHeap c3MixEntry 2 [("X", PyVal.ref 3)]
      [PyVal.str "XX", PyVal.str " X"] [CraftIngredient.mk "A" 5] [("A", 2)]
      "A" (by decide) (by decide) (by decide) (by decide) (by decide)⟩

theorem addAmount_keys :
    ∀ (m : List (String × Int)) (k : String) (v : Int),
      (∀ q ∈ m, q.1 ≠ "") → k ≠ "" → ∀ q ∈ addAmount m k v, q.1 ≠ "" := by
  intro m k v
  induction m with
  | nil =>
    intro _ hk q hq
    rw [addAmount] at hq
    rcases List.mem_singleton.1 hq with rfl
    exact hk
  | cons p m ih =>
    intro hm hk q hq
    rw [addAmount] at hq
    by_cases hp : p.1 = k
    · rw [if_pos hp] at hq
      rcases List.mem_cons.1 hq with rfl | hq2
      · exact hm p (List.mem_cons_self p m)
      · exact hm q (List.mem_cons_of_mem p hq2)
    · rw [if_neg hp] at hq
      rcases List.mem_cons.1 hq with rfl | hq2
      · exact hm q (List.mem_cons_self q m)
      · exact ih (fun r hr => hm r (List.mem_cons_of_mem p hr)) hk q hq2

theorem mergePairs_keys :
    ∀ (ps m : List (String × Int)),
      (∀ q ∈ m, q.1 ≠ "") → ∀ q ∈ mergePairs m ps, q.1 ≠ "" := by
  intro ps
  induction ps with
  | nil => intro m hm; exact hm
  | cons p ps ih =>
    intro m hm
    rw [mergePairs_cons]
    by_cases hv : p.1 ≠ "" ∧ 0 < p.2
    · rw [if_pos hv]
      exact ih _ (addAmount_keys m p.1 p.2 hm hv.1)
    · rw [if_neg hv]
      exact ih _ hm

theorem overlayStep_keys (h : Heap) (rows : List PyVal)
    (m : List (String × Int)) (p : String × PyVal)
    (hm : ∀ q ∈ m, q.1 ≠ "") : ∀ q ∈ overlayStep h rows m p, q.1 ≠ "" := by
  unfold overlayStep
  by_cases h0 : p.1 = "" ∨ symCount rows p.1 = 0
  · rw [if_pos h0]; exact hm
  · rw [if_neg h0]
    cases p.2 with
    | ref b =>
      dsimp only
      cases h.get b with
      | map ies =>
        dsimp only
        by_cases hv :
            _coerce_product_id (idChainVal h ies) ≠ "" ∧
              0 < _coerce_int (keyAmountVal h ies) 0
        · rw [if_pos hv]
          exact addAmount_keys m _ _ hm hv.1
        · rw [if_neg hv]; exact hm
      | seq es => exact hm
    | none => exact hm
    | str s => exact hm
    | int n => exact hm
    | bool b => exact hm

theorem overlayFold_keys (h : Heap) (rows : List PyVal) :
    ∀ (kentries : List (String × PyVal)) (m : List (String × Int)),
      (∀ q ∈ m, q.1 ≠ "") →
      ∀ q ∈ kentries.foldl (overlayStep h rows) m, q.1 ≠ "" := by
  intro kentries
  induction kentries with
  | nil => intro m hm; exact hm
  | cons p ks ih =>
    intro m hm
    rw [List.foldl_cons]
    exact ih _ (overlayStep_keys h rows m p hm)

theorem applyOverlay_keys (h : Heap) (entry : List (String × PyVal))
    (m : List (String × Int)) (hm : ∀ q ∈ m, q.1 ≠ "") :
    ∀ q ∈ applyOverlay h entry m, q.1 ≠ "" := by
  unfold applyOverlay
  cases mget entry "key" with
  | ref a =>
    cases patternRows h (mget entry "pattern") with
    | none => exact hm
    | some rows =>
      dsimp only
      cases h.get a with
      | map kentries => exact overlayFold_keys h rows kentries m hm
      | seq es => exact hm
  | none => cases patternRows h (mget entry "pattern") <;> exact hm
  | str s => cases patternRows h (mget entry "pattern") <;> exact hm
  | int n => cases patternRows h (mget entry "pattern") <;> exact hm
  | bool b => cases patternRows h (mget entry "pattern") <;> exact hm

theorem scanContainers_keys (h : Heap) (entry : List (String × PyVal)) :
    ∀ (ks : List String) (m res : List (String × Int)),
      scanContainers h entry ks m = some res →
      (∀ q ∈ m, q.1 ≠ "") → ∀ q ∈ res, q.1 ≠ "" := by
  intro ks
  induction ks with
  | nil =>
    intro m res hres hm
    rw [scanContainers] at hres
    cases hres
    exact hm
  | cons ck ks ih =>
    intro m res hres hm
    rw [scanContainers] at hres
    by_cases hck : mget entry ck = PyVal.none
    · rw [if_pos hck] at hres
      exact ih m res hres hm
    · rw [if_neg hck] at hres
      cases hx : _extract_ingredient_container h (mget entry ck) with
      | none => rw [hx] at hres; exact absurd hres (by simp)
      | some ps =>
        rw [hx, Option.some_bind] at hres
        exact ih _ res hres (mergePairs_keys ps m hm)

theorem extract_ingredients_keys (h : Heap) (entry : List (String × PyVal))
    (l : List CraftIngredient) (hl : _extract_ingredients h entry = some l) :
    ∀ i ∈ l, i.product_id ≠ "" := by
  rw [_extract_ingredients] at hl
  cases hs : containerScan h entry with
  | none => rw [hs] at hl; exact absurd hl (by simp)
  | some m =>
    rw [hs, Option.map_some', Option.some.injEq] at hl
    subst hl
    intro i hi
    rcases List.mem_map.1 hi with ⟨q, hq, rfl⟩
    exact applyOverlay_keys h entry m
      (scanContainers_keys h entry containerKeys [] m hs (by simp)) q hq

theorem isEmpty_false_ne_nil {α : Type} {l : List α}
    (hl : l.isEmpty = false) : l ≠ [] := by
  cases l with
  | nil => exact absurd hl (by simp)
  | cons a l => exact List.cons_ne_nil a l

theorem parseHypixelEntry_good (h : Heap) (acc : List CraftRecipe)
    (ev : PyVal) (rs : List CraftRecipe)
    (hres : parseHypixelEntry h acc ev = some rs) :
    ∀ r ∈ rs, r ∈ acc ∨ GoodRecipe r := by
  cases ev with
  | ref a =>
    cases hget : h.get a with
    | map es =>
      simp only [parseHypixelEntry, hget] at hres
      by_cases hpid : (_extract_output h es).1 = ""
      · rw [if_pos hpid] at hres
        cases hres
        exact fun r hr => Or.inl hr
      · rw [if_neg hpid] at hres
        cases hx : _extract_ingredients h es with
        | none => rw [hx] at hres; exact absurd hres (by simp)
        | some ings =>
          rw [hx, Option.map_some', Option.some.injEq] at hres
          subst hres
          by_cases hemp : ings.isEmpty
          · rw [if_pos hemp]
            exact fun r hr => Or.inl hr
          · rw [if_neg hemp]
            intro r hr
            rcases List.mem_append.1 hr with hr1 | hr2
            · exact Or.inl hr1
            · rcases List.mem_singleton.1 hr2 with rfl
              refine Or.inr ⟨hpid, ?_, ?_⟩
              · exact isEmpty_false_ne_nil (Bool.eq_false_iff.2 hemp)
              · exact extract_ingredients_keys h es ings hx
    | seq es =>
      simp only [parseHypixelEntry, hget] at hres
      cases hres
      exact fun r hr => Or.inl hr
  | none =>
    cases hres
    exact fun r hr => Or.inl hr
  | str s =>
    cases hres
    exact fun r hr => Or.inl hr
  | int n =>
    cases hres
    exact fun r hr => Or.inl hr
  | bool b =>
    cases hres
    exact fun r hr => Or.inl hr

theorem parseHypixel_fold_good (h : Heap) :
    ∀ (evs : List PyVal) (acc rs : List CraftRecipe),
      evs.foldlM (parseHypixelEntry h) acc = some rs →
      (∀ r ∈ acc, GoodRecipe r) → ∀ r ∈ rs, GoodRecipe r := by
  intro evs
  induction evs with
  | nil =>
    intro acc rs hres hacc
    cases hres
    exact hacc
  | cons ev evs ih =>
    intro acc rs hres hacc
    simp only [List.foldlM] at hres
    cases hstep : parseHypixelEntry h acc ev with
    | none => rw [hstep] at hres; exact absurd hres (by simp)
    | some acc' =>
      rw [hstep] at hres
      simp only [Option.bind_eq_bind, Option.some_bind] at hres
      refine ih acc' rs hres ?_
      intro r hr
      rcases parseHypixelEntry_good h acc ev acc' hstep r hr with hmem | hgood
      · exact hacc r hmem
      · exact hgood

theorem parse_hypixel_good (h : Heap) (data : PyVal) (rs : List CraftRecipe)
    (hres : _parse_hypixel_payload h data = some rs) :
    ∀ r ∈ rs, GoodRecipe r :=
  parseHypixel_fold_good h (hypixelEntries h data) [] rs hres (by simp)

theorem extract_empty (h : Heap) (v : PyVal)
    (hv : emptyOrAbsentContainer h v = true) (hne : v ≠ PyVal.none) :
    _extract_ingredient_container h v = some [] := by
  cases v with
  | ref a =>
    rw [_extract_ingredient_container]
    have hnotmem : a ∉ (∅ : Finset Nat) := Finset.not_mem_empty a
    cases hget : h.get a with
    | map es =>
      have hes : es = [] := by
        simp only [emptyOrAbsentContainer, hget] at hv
        exact List.isEmpty_iff.1 hv
      subst hes
      rw [show enoughFuel h = h.objs.length + 1 from rfl,
        inner_ref_map_invalid h _ a ∅ [] hnotmem hget (fun hc => hc.1 rfl)]
      rfl
    | seq es =>
      have hes : es = [] := by
        simp only [emptyOrAbsentContainer, hget] at hv
        exact List.isEmpty_iff.1 hv
      subst hes
      rw [show enoughFuel h = h.objs.length + 1 from rfl,
        inner_ref_seq h _ a ∅ [] hnotmem hget]
      rfl
  | none => exact absurd rfl hne
  | str s => exact absurd hv (by simp [emptyOrAbsentContainer])
  | int n => exact absurd hv (by simp [emptyOrAbsentContainer])
  | bool b => exact absurd hv (by simp [emptyOrAbsentContainer])

theorem scanContainers_empty (h : Heap) (entry : List (String × PyVal)) :
    ∀ (ks : List String),
      (∀ ck ∈ ks, emptyOrAbsentContainer h (mget entry ck) = true) →
      ∀ m, scanContainers h entry ks m = some m := by
  intro ks
  induction ks with
  | nil => intro _ m; rfl
  | cons ck ks ih =>
    intro hempty m
    rw [scanContainers]
    by_cases hck : mget entry ck = PyVal.none
    · rw [if_pos hck]
      exact ih (fun c hc => hempty c (List.mem_cons_of_mem ck hc)) m
    · rw [if_neg hck,
        extract_empty h (mget entry ck)
          (hempty ck (List.mem_cons_self ck ks)) hck,
        Option.some_bind, mergePairs_nil]
      exact ih (fun c hc => hempty c (List.mem_cons_of_mem ck hc)) m

theorem applyOverlay_not_applicable (h : Heap)
    (entry : List (String × PyVal)) (m : List (String × Int))
    (hna : overlayApplicable h entry = false) :
    applyOverlay h entry m = m := by
  unfold applyOverlay
  unfold overlayApplicable at hna
  revert hna
  cases mget entry "key" with
  | ref a =>
    cases patternRows h (mget entry "pattern") with
    | none => intro _; rfl
    | some rows =>
      dsimp only
      cases h.get a with
      | map kentries => intro hna; exact absurd hna (by simp)
      | seq es => intro _; rfl
  | none => cases patternRows h (mget entry "pattern") <;> intro _ <;> rfl
  | str s => cases patternRows h (mget entry "pattern") <;> intro _ <;> rfl
  | int n => cases patternRows h (mget entry "pattern") <;> intro _ <;> rfl
  | bool b => cases patternRows h (mget entry "pattern") <;> intro _ <;> rfl

/-- C5 counterexample: an entry in which every candidate ingredient
container (`"ingredients"`, `"input"`, `"inputs"`, `"items"`,
`"materials"`, `"slots"`, `"recipe"`, `"components"`) is absent, yet
normalization emits a Recipe, because the shaped `"key"`/`"pattern"`
overlay supplies an ingredient. -/
theorem empty_containers_counterexample :
    containerKeys.all (fun ck => mget c5Entry ck == PyVal.none) = true
    ∧ _parse_hypixel_payload c5Heap (PyVal.ref 0) =
        some [CraftRecipe.mk "X" 1 [CraftIngredient.mk "S" 1]] :=
  ⟨by decide, by decide⟩

/-- C5 (amended): for every raw entry in which all candidate ingredient
containers are empty or absent *and* no shaped `"key"`/`"pattern"` overlay
applies, extraction yields no ingredients, hence no Recipe for that entry;
and in general a Recipe whose merged ingredient map is empty is discarded:
no recipe emitted by normalization has an empty ingredient list. -/
theorem empty_containers_no_recipe :
    (∀ (h : Heap) (entry : List (String × PyVal)),
      (∀ ck ∈ containerKeys,
        emptyOrAbsentContainer h (mget entry ck) = true) →
      overlayApplicable h entry = false →
      _extract_ingredients h entry = some [])
    ∧ (∀ (h : Heap) (data : PyVal) (rs : List CraftRecipe),
        _parse_hypixel_payload h data = some rs →
        ∀ r ∈ rs, r.ingredients ≠ []) :=
  ⟨fun h entry hempty hover => by
      rw [_extract_ingredients, containerScan,
        scanContainers_empty h entry containerKeys hempty [],
        Option.map_some', applyOverlay_not_applicable h entry [] hover]
      rfl,
    fun h data rs hres r hr => (parse_hypixel_good h data rs hres r hr).2.1⟩

theorem empty_containers_no_recipe_witness :
    (∀ ck ∈ containerKeys,
      emptyOrAbsentContainer (Heap.mk [])
          (mget [("name", PyVal.str "Q")] ck) =
        true)
    ∧ overlayApplicable (Heap.mk []) [("name", PyVal.str "Q")] = false
    ∧ _extract_ingredients (Heap.mk []) [("name", PyVal.str "Q")] = some [] :=
  ⟨by decide, by decide,
    empty_containers_no_recipe.1 (Heap.mk []) [("name", PyVal.str "Q")]
      (by decide) (by decide)⟩

theorem parseIngredientRow_tree (ia : List CraftIngredient)
    (i : CraftIngredient) (hne : i.product_id ≠ "") :
    parseIngredientRow ia (ingTree i) = some (ia ++ [i]) := by
  have h1 :
      lookupT
          [("product_id", PyTree.str i.product_id),
            ("amount", PyTree.int i.amount)] "product_id" =
        some (PyTree.str i.product_id) := rfl
  have h2 :
      lookupT
          [("product_id", PyTree.str i.product_id),
            ("amount", PyTree.int i.amount)] "amount" =
        some (PyTree.int i.amount) := rfl
  unfold parseIngredientRow ingTree
  dsimp only
  rw [h1, h2]
  dsimp only [Option.getD, truthyT, isNoneT]
  rw [if_neg (by simp [hne]), pyIntT]
  dsimp only [Option.map_some', pyStrT]

theorem ingRows_fold :
    ∀ (ings : List CraftIngredient) (ia : List CraftIngredient),
      (∀ i ∈ ings, i.product_id ≠ "") →
      (ings.map ingTree).foldlM parseIngredientRow ia = some (ia ++ ings) := by
  intro ings
  induction ings with
  | nil => intro ia _; simp [List.foldlM]
  | cons i ings ih =>
    intro ia hne
    simp only [List.map_cons, List.foldlM]
    rw [parseIngredientRow_tree ia i (hne i (List.mem_cons_self i ings))]
    simp only [Option.bind_eq_bind, Option.some_bind]
    rw [ih (ia ++ [i]) (fun j hj => hne j (List.mem_cons_of_mem i hj))]
    simp

theorem parsePayloadEntry_tree (acc : List CraftRecipe) (r : CraftRecipe)
    (hr : GoodRecipe r) :
    parsePayloadEntry acc (recipeTree r) = some (acc ++ [r]) := by
  have h1 :
      lookupT
          [("product_id", PyTree.str r.product_id),
            ("output_amount", PyTree.int r.output_amount),
            ("ingredients", PyTree.list (r.ingredients.map ingTree))]
          "product_id" =
        some (PyTree.str r.product_id) := rfl
  have h2 :
      lookupT
          [("product_id", PyTree.str r.product_id),
            ("output_amount", PyTree.int r.output_amount),
            ("ingredients", PyTree.list (r.ingredients.map ingTree))]
          "output_amount" =
        some (PyTree.int r.output_amount) := rfl
  have h3 :
      lookupT
          [("product_id", PyTree.str r.product_id),
            ("output_amount", PyTree.int r.output_amount),
            ("ingredients", PyTree.list (r.ingredients.map ingTree))]
          "ingredients" =
        some (PyTree.list (r.ingredients.map ingTree)) := rfl
  unfold parsePayloadEntry recipeTree
  dsimp only
  rw [h1, h2, h3]
  dsimp only [Option.getD, pyStrT, pyIntT, iterT]
  rw [if_neg hr.1, ingRows_fold r.ingredients [] hr.2.2]
  simp only [List.nil_append, Option.map_some']
  rw [if_neg (fun hemp => hr.2.1 (List.isEmpty_iff.1 hemp))]

theorem payload_fold :
    ∀ (rs acc : List CraftRecipe), (∀ r ∈ rs, GoodRecipe r) →
      (rs.map recipeTree).foldlM parsePayloadEntry acc = some (acc ++ rs) := by
  intro rs
  induction rs with
  | nil => intro acc _; simp [List.foldlM]
  | cons r rs ih =>
    intro acc hgood
    simp only [List.map_cons, List.foldlM]
    rw [parsePayloadEntry_tree acc r (hgood r (List.mem_cons_self r rs))]
    simp only [Option.bind_eq_bind, Option.some_bind]
    rw [ih (acc ++ [r]) (fun j hj => hgood j (List.mem_cons_of_mem r hj))]
    simp

theorem parse_to_payload (rs : List CraftRecipe)
    (hrs : ∀ r ∈ rs, GoodRecipe r) :
    _parse_payload (to_payload rs) = some rs := by
  have h1 :
      lookupT [("recipes", PyTree.list (rs.map recipeTree))] "recipes" =
        some (PyTree.list (rs.map recipeTree)) := rfl
  unfold _parse_payload to_payload
  dsimp only
  rw [h1]
  dsimp only [Option.getD, iterT]
  rw [payload_fold rs [] hrs]
  simp

/-- C6: for every list of recipes produced by the normalizer, serialising
it to the canonical payload shape and re-parsing that payload yields the
identical list — same order, same `product_id` and `output_amount` per
recipe, and the same ingredient pairs. -/
theorem canonical_roundtrip :
    ∀ (h : Heap) (data : PyVal) (rs : List CraftRecipe),
      _parse_hypixel_payload h data = some rs →
      _parse_payload (to_payload rs) = some rs :=
  fun h data rs hres => parse_to_payload rs (parse_hypixel_good h data rs hres)

theorem canonical_roundtrip_witness :
    _parse_hypixel_payload basicHeap (PyVal.ref 0) =
      some
        [CraftRecipe.mk "ENCHANTED_CARROT" 1
            [CraftIngredient.mk "CARROT_ITEM" 160],
          CraftRecipe.mk "ENCHANTED_PORK" 1 [CraftIngredient.mk "PORK" 160]]
    ∧ _parse_payload
        (to_payload
          [CraftRecipe.mk "ENCHANTED_CARROT" 1
              [CraftIngredient.mk "CARROT_ITEM" 160],
            CraftRecipe.mk "ENCHANTED_PORK" 1 [CraftIngredient.mk "PORK" 160]]) =
      some
        [CraftRecipe.mk "ENCHANTED_CARROT" 1
            [CraftIngredient.mk "CARROT_ITEM" 160],
          CraftRecipe.mk "ENCHANTED_PORK" 1 [CraftIngredient.mk "PORK" 160]] :=
  ⟨by decide,
    canonical_roundtrip basicHeap (PyVal.ref 0)
      [CraftRecipe.mk "ENCHANTED_CARROT" 1
          [CraftIngredient.mk "CARROT_ITEM" 160],
        CraftRecipe.mk "ENCHANTED_PORK" 1 [CraftIngredient.mk "PORK" 160]]
      (by decide)⟩

/-- C10: a canonical-payload entry that lacks the `"product_id"` key is not
skipped: `str(None)` coerces the missing value to the non-empty string
`"None"`, so every recipe such an entry emits carries the literal
product id `"None"` (first conjunct), and an entry with one valid
ingredient does emit such a recipe (second conjunct). -/
theorem missing_product_id_parses_as_None_string :
    (∀ (ees : List (String × PyTree)) (rs : List CraftRecipe),
      lookupT ees "product_id" = Option.none →
      _parse_payload
          (PyTree.dict [("recipes", PyTree.list [PyTree.dict ees])]) =
        some rs →
      ∀ r ∈ rs, r.product_id = "None")
    ∧ _parse_payload
        (PyTree.dict
          [("recipes",
            PyTree.list
              [PyTree.dict
                [("ingredients",
                  PyTree.list
                    [PyTree.dict
                      [("product_id", PyTree.str "A"),
                        ("amount", PyTree.int 2)]])]])]) =
      some [CraftRecipe.mk "None" 1 [CraftIngredient.mk "A" 2]] := by
  constructor
  · intro ees rs hnone hres
    unfold _parse_payload at hres
    dsimp only at hres
    rw [show
        lookupT [("recipes", PyTree.list [PyTree.dict ees])] "recipes" =
          some (PyTree.list [PyTree.dict ees]) from rfl] at hres
    dsimp only [Option.getD, iterT] at hres
    simp only [List.foldlM] at hres
    cases hstep : parsePayloadEntry [] (PyTree.dict ees) with
    | none => rw [hstep] at hres; exact absurd hres (by simp)
    | some rs1 =>
      rw [hstep] at hres
      simp only [Option.bind_eq_bind, Option.some_bind, Option.pure_def,
        Option.some.injEq] at hres
      subst hres
      unfold parsePayloadEntry at hstep
      dsimp only at hstep
      rw [hnone] at hstep
      rw [show pyStrT ((Option.none : Option PyTree).getD PyTree.none) =
          "None" from rfl] at hstep
      rw [if_neg (by decide : ¬("None" = ""))] at hstep
      cases hoa : pyIntT ((lookupT ees "output_amount").getD (PyTree.int 1)) with
      | none => rw [hoa] at hstep; exact absurd hstep (by simp)
      | some oa =>
        rw [hoa] at hstep
        cases hit : iterT ((lookupT ees "ingredients").getD (PyTree.list [])) with
        | none => rw [hit] at hstep; exact absurd hstep (by simp)
        | some ingEntries =>
          rw [hit] at hstep
          dsimp only at hstep
          cases hfold : ingEntries.foldlM parseIngredientRow [] with
          | none => rw [hfold] at hstep; exact absurd hstep (by simp)
          | some ings =>
            rw [hfold, Option.map_some', Option.some.injEq] at hstep
            subst hstep
            by_cases hemp : ings.isEmpty
            · rw [if_pos hemp]
              intro r hr
              exact absurd hr (List.not_mem_nil r)
            · rw [if_neg hemp]
              intro r hr
              rcases List.mem_singleton.1 hr with rfl
              rfl
  · decide

theorem missing_product_id_parses_as_None_string_witness :
    lookupT
        [("ingredients",
          PyTree.list
            [PyTree.dict
              [("product_id", PyTree.str "A"), ("amount", PyTree.int 2)]])]
        "product_id" =
      Option.none
    ∧ ∀ r ∈ [CraftRecipe.mk "None" 1 [CraftIngredient.mk "A" 2]],
        r.product_id = "None" :=
  ⟨rfl,
    missing_product_id_parses_as_None_string.1
      [("ingredients",
        PyTree.list
          [PyTree.dict
            [("product_id", PyTree.str "A"), ("amount", PyTree.int 2)]])]
      [CraftRecipe.mk "None" 1 [CraftIngredient.mk "A" 2]] rfl
      missing_product_id_parses_as_None_string.2⟩

theorem evalStep_none (products : String → Option BazaarProduct)
    (acc : ℚ × Int) (ing : CraftIngredient)
    (hp : products ing.product_id = Option.none) :
    evalStep products acc ing = Option.none := by
  rw [evalStep, hp]; rfl

theorem evalStep_some (products : String → Option BazaarProduct)
    (acc : ℚ × Int) (ing : CraftIngredient) (ip : BazaarProduct)
    (hp : products ing.product_id = some ip) :
    evalStep products acc ing =
      some (acc.1 + ip.buy_price * (ing.amount : ℚ), min acc.2 ip.popularity) := by
  rw [evalStep, hp]; rfl

theorem eval_fold_isSome (products : String → Option BazaarProduct) :
    ∀ (ings : List CraftIngredient) (acc : ℚ × Int),
      (ings.foldlM (evalStep products) acc).isSome →
      ∀ ing ∈ ings, (products ing.product_id).isSome := by
  intro ings
  induction ings with
  | nil => intro acc _ ing hing; exact absurd hing (List.not_mem_nil ing)
  | cons i ings ih =>
    intro acc hsome ing hing
    simp only [List.foldlM] at hsome
    cases hp : products i.product_id with
    | none =>
      rw [evalStep_none products acc i hp] at hsome
      exact absurd hsome (by simp)
    | some ip =>
      rw [evalStep_some products acc i ip hp] at hsome
      simp only [Option.bind_eq_bind, Option.some_bind] at hsome
      rcases List.mem_cons.1 hing with rfl | hmem
      · rw [hp]; rfl
      · exact ih _ hsome ing hmem

theorem eval_fold_eq (products : String → Option BazaarProduct) :
    ∀ (ings : List CraftIngredient) (acc : ℚ × Int),
      (∀ ing ∈ ings, (products ing.product_id).isSome) →
      ings.foldlM (evalStep products) acc =
        some (acc.1 + evalCostSum products ings,
          List.foldl min acc.2 (evalPops products ings)) := by
  intro ings
  induction ings with
  | nil =>
    intro acc _
    simp [List.foldlM, evalCostSum, evalPops]
  | cons i ings ih =>
    intro acc hall
    have hi := hall i (List.mem_cons_self i ings)
    cases hp : products i.product_id with
    | none => rw [hp] at hi; exact absurd hi (by simp)
    | some ip =>
      simp only [List.foldlM]
      rw [evalStep_some products acc i ip hp]
      simp only [Option.bind_eq_bind, Option.some_bind]
      rw [ih _ (fun j hj => hall j (List.mem_cons_of_mem i hj))]
      simp only [evalCostSum, evalPops, List.map_cons, List.sum_cons,
        List.foldl_cons, hp, Option.elim, Option.some.injEq, Prod.mk.injEq]
      constructor
      · ring
      · trivial

theorem costSum_swap (products : String → Option BazaarProduct) :
    ∀ (ings : List CraftIngredient),
      evalCostSum products ings =
        (ings.map
          (fun ing =>
            (ing.amount : ℚ) *
              (products ing.product_id).elim 0 BazaarProduct.buy_price)).sum := by
  intro ings
  induction ings with
  | nil => rfl
  | cons i ings ih =>
    simp only [evalCostSum, List.map_cons, List.sum_cons] at ih ⊢
    rw [ih, mul_comm]

/-- C7: evaluation returns a result exactly when the output item and every
ingredient are present in the snapshot (first conjunct); when it does, the
total cost is the sum over ingredients of `amount × buy_price`, the sell
value is `output_amount × sell_price`, profit is sell value minus cost,
roi is profit over cost except 0 when cost ≤ 0, and popularity is the
minimum of the output's popularity (`sell_volume + buy_volume`) and every
ingredient's popularity (second conjunct). -/
theorem evaluation_spec :
    ∀ (products : String → Option BazaarProduct) (recipe : CraftRecipe),
      ((evaluate_recipe products recipe).isSome ↔
        (products recipe.product_id).isSome ∧
          ∀ ing ∈ recipe.ingredients, (products ing.product_id).isSome)
      ∧ ∀ (res : CraftProfit) (product : BazaarProduct),
          evaluate_recipe products recipe = some res →
          products recipe.product_id = some product →
          res.total_buy_cost =
              (recipe.ingredients.map
                (fun ing =>
                  (ing.amount : ℚ) *
                    (products ing.product_id).elim 0
                      BazaarProduct.buy_price)).sum
          ∧ res.total_sell_price =
              (recipe.output_amount : ℚ) * product.sell_price
          ∧ res.profit = res.total_sell_price - res.total_buy_cost
          ∧ res.roi =
              (if res.total_buy_cost ≤ 0 then 0
                else res.profit / res.total_buy_cost)
          ∧ res.popularity =
              List.foldl min product.popularity
                (recipe.ingredients.map
                  (fun ing =>
                    (products ing.product_id).elim 0
                      BazaarProduct.popularity)) := by
  intro products recipe
  constructor
  · constructor
    · intro hsome
      cases hp : products recipe.product_id with
      | none =>
        unfold evaluate_recipe at hsome
        rw [hp] at hsome
        exact absurd hsome (by simp)
      | some product =>
        refine ⟨by simp [hp], ?_⟩
        unfold evaluate_recipe at hsome
        rw [hp] at hsome
        dsimp only at hsome
        cases hfold :
            recipe.ingredients.foldlM (evalStep products)
              ((0 : ℚ), product.popularity) with
        | none => rw [hfold] at hsome; exact absurd hsome (by simp)
        | some tc =>
          exact eval_fold_isSome products recipe.ingredients _
            (by rw [hfold]; rfl)
    · rintro ⟨hout, hall⟩
      cases hp : products recipe.product_id with
      | none => rw [hp] at hout; exact absurd hout (by simp)
      | some product =>
        unfold evaluate_recipe
        rw [hp]
        dsimp only
        rw [eval_fold_eq products recipe.ingredients _ hall]
        rfl
  · intro res product hres hout
    unfold evaluate_recipe at hres
    rw [hout] at hres
    dsimp only at hres
    have hall : ∀ ing ∈ recipe.ingredients, (products ing.product_id).isSome := by
      cases hfold :
          recipe.ingredients.foldlM (evalStep products)
            ((0 : ℚ), product.popularity) with
      | none => rw [hfold] at hres; exact absurd hres (by simp)
      | some tc =>
        exact eval_fold_isSome products recipe.ingredients _
          (by rw [hfold]; rfl)
    rw [eval_fold_eq products recipe.ingredients _ hall] at hres
    simp only [Option.map_some', Option.some.injEq] at hres
    subst hres
    refine ⟨?_, ?_, rfl, rfl, rfl⟩
    · show (0 : ℚ) + evalCostSum products recipe.ingredients = _
      rw [zero_add]
      exact costSum_swap products recipe.ingredients
    · show product.sell_price * (recipe.output_amount : ℚ) = _
      ring

theorem evaluation_spec_witness :
    evaluate_recipe wProducts wRecipe = some wRes
    ∧ wProducts "OUT" = some wOut
    ∧ wRes.profit = wRes.total_sell_price - wRes.total_buy_cost
    ∧ wRes.roi =
        (if wRes.total_buy_cost ≤ 0 then 0
          else wRes.profit / wRes.total_buy_cost) := by
  have hout : wProducts "OUT" = some wOut := by simp [wProducts]
  have hin : wProducts "IN" = some wIn := by simp [wProducts]
  have hev : evaluate_recipe wProducts wRecipe = some wRes := by
    simp only [evaluate_recipe, wRecipe, evalStep, List.foldlM, hout, hin,
      wRes, wOut, wIn, BazaarProduct.popularity]
    norm_num [min_def, CraftProfit.mk.injEq]
  exact ⟨hev, hout,
    ((evaluation_spec wProducts wRecipe).2 wRes wOut hev hout).2.2.1,
    ((evaluation_spec wProducts wRecipe).2 wRes wOut hev hout).2.2.2.1⟩

theorem insertDescBy_perm (key : CraftProfit → ℚ) (x : CraftProfit) :
    ∀ (l : List CraftProfit), (insertDescBy key x l).Perm (x :: l) := by
  intro l
  induction l with
  | nil => exact List.Perm.refl _
  | cons y ys ih =>
    rw [insertDescBy]
    by_cases hxy : key x ≤ key y
    · rw [if_pos hxy]
      exact (ih.cons y).trans (List.Perm.swap x y ys)
    · rw [if_neg hxy]

theorem sortFold_perm (key : CraftProfit → ℚ) :
    ∀ (l acc : List CraftProfit),
      (l.foldl (fun a x => insertDescBy key x a) acc).Perm (acc ++ l) := by
  intro l
  induction l with
  | nil => intro acc; simp
  | cons x xs ih =>
    intro acc
    rw [List.foldl_cons]
    refine (ih (insertDescBy key x acc)).trans ?_
    refine (List.Perm.append_right xs (insertDescBy_perm key x acc)).trans ?_
    exact List.perm_middle.symm

theorem sortDescBy_perm (key : CraftProfit → ℚ) (l : List CraftProfit) :
    (sortDescBy key l).Perm l := by
  have := sortFold_perm key l []
  rw [List.nil_append] at this
  exact this

theorem insertDescBy_sorted (key : CraftProfit → ℚ) (x : CraftProfit) :
    ∀ (l : List CraftProfit),
      l.Pairwise (fun a b => key b ≤ key a) →
      (insertDescBy key x l).Pairwise (fun a b => key b ≤ key a) := by
  intro l
  induction l with
  | nil => intro _; exact List.pairwise_singleton _ x
  | cons y ys ih =>
    intro hl
    rw [List.pairwise_cons] at hl
    obtain ⟨hy, hys⟩ := hl
    rw [insertDescBy]
    by_cases hxy : key x ≤ key y
    · rw [if_pos hxy, List.pairwise_cons]
      constructor
      · intro z hz
        rcases List.mem_cons.1 ((insertDescBy_perm key x ys).mem_iff.1 hz)
          with rfl | hzys
        · exact hxy
        · exact hy z hzys
      · exact ih hys
    · rw [if_neg hxy, List.pairwise_cons]
      constructor
      · intro z hz
        rcases List.mem_cons.1 hz with rfl | hzys
        · exact le_of_lt (lt_of_not_le hxy)
        · exact le_trans (hy z hzys) (le_of_lt (lt_of_not_le hxy))
      · exact List.pairwise_cons.2 ⟨hy, hys⟩

theorem sortFold_sorted (key : CraftProfit → ℚ) :
    ∀ (l acc : List CraftProfit),
      acc.Pairwise (fun a b => key b ≤ key a) →
      (l.foldl (fun a x => insertDescBy key x a) acc).Pairwise
        (fun a b => key b ≤ key a) := by
  intro l
  induction l with
  | nil => intro acc hacc; exact hacc
  | cons x xs ih =>
    intro acc hacc
    rw [List.foldl_cons]
    exact ih _ (insertDescBy_sorted key x acc hacc)

theorem sortDescBy_sorted (key : CraftProfit → ℚ) (l : List CraftProfit) :
    (sortDescBy key l).Pairwise (fun a b => key b ≤ key a) :=
  sortFold_sorted key l [] (List.Pairwise.nil)

theorem rankFilter_eq (products : String → Option BazaarProduct)
    (recipes : List CraftRecipe) (mp : ℚ) (mpop : Int) :
    rankFilter products recipes mp mpop =
      recipes.filterMap
        (fun r =>
          (evaluate_recipe products r).bind
            (fun res =>
              if mp ≤ res.profit ∧ mpop ≤ res.popularity then some res
              else Option.none)) := by
  unfold rankFilter
  congr 1
  funext r
  cases evaluate_recipe products r with
  | none => rfl
  | some res =>
    dsimp only [Option.some_bind]
    by_cases h1 : res.profit < mp
    · rw [if_pos h1, if_neg (fun hc => absurd hc.1 (not_le.2 h1))]
    · rw [if_neg h1]
      by_cases h2 : res.popularity < mpop
      · rw [if_pos h2, if_neg (fun hc => absurd hc.2 (not_le.2 h2))]
      · rw [if_neg h2, if_pos ⟨not_lt.1 h1, not_lt.1 h2⟩]

theorem sortKeyFn_default (s : String) (h1 : s ≠ "profit") (h2 : s ≠ "roi")
    (h3 : s ≠ "popularity") : sortKeyFn s = CraftProfit.profit := by
  rw [sortKeyFn, if_neg h1, if_neg h2, if_neg h3]

/-- C8: ranking keeps exactly the recipes whose evaluation succeeds and
meets both thresholds (with no limit, the output is a permutation of the
qualifying evaluations, which are exactly the successful
threshold-passing ones, in recipe order); the output is sorted descending
by the selected key; a limit `n ≥ 0` truncates the unlimited ranking to
its first `n` items, and `None` keeps the full list; an unrecognized sort
key ranks exactly as `"profit"`; the repository's three-recipe example
with limit 2 returns the two top recipes in descending profit order. -/
theorem ranking_spec :
    ∀ (products : String → Option BazaarProduct) (recipes : List CraftRecipe)
      (mp : ℚ) (mpop : Int) (s : String),
      (rank_recipes products recipes mp mpop Option.none s).Perm
          (rankFilter products recipes mp mpop)
      ∧ rankFilter products recipes mp mpop =
          recipes.filterMap
            (fun r =>
              (evaluate_recipe products r).bind
                (fun res =>
                  if mp ≤ res.profit ∧ mpop ≤ res.popularity then some res
                  else Option.none))
      ∧ (rank_recipes products recipes mp mpop Option.none s).Pairwise
          (fun a b => sortKeyFn s b ≤ sortKeyFn s a)
      ∧ (∀ n : Int, 0 ≤ n →
          rank_recipes products recipes mp mpop (some n) s =
            (rank_recipes products recipes mp mpop Option.none s).take
              n.toNat)
      ∧ (s ≠ "profit" → s ≠ "roi" → s ≠ "popularity" →
          ∀ limit, rank_recipes products recipes mp mpop limit s =
            rank_recipes products recipes mp mpop limit "profit")
      ∧ rank_recipes aProducts aRecipes 0 500 (some 2) "profit" =
          [aResB, aResA] := by
  intro products recipes mp mpop s
  refine ⟨?_, rankFilter_eq products recipes mp mpop, ?_, ?_, ?_, ?_⟩
  · exact sortDescBy_perm (sortKeyFn s) (rankFilter products recipes mp mpop)
  · exact sortDescBy_sorted (sortKeyFn s)
      (rankFilter products recipes mp mpop)
  · intro n hn
    show pySlice _ (some n) = (pySlice _ Option.none).take n.toNat
    rw [pySlice, pySlice, if_pos hn]
  · intro h1 h2 h3 limit
    unfold rank_recipes
    rw [sortKeyFn_default s h1 h2 h3, sortKeyFn, if_pos rfl]
  · have hA : aProducts "A" = some aProdA := by simp [aProducts]
    have hB : aProducts "B" = some aProdB := by simp [aProducts]
    have hC : aProducts "C" = some aProdC := by simp [aProducts]
    have hevA :
        evaluate_recipe aProducts
            (CraftRecipe.mk "A" 1 [CraftIngredient.mk "B" 1]) =
          some aResA := by
      simp only [evaluate_recipe, evalStep, List.foldlM, hA, hB,
        BazaarProduct.popularity, aProdA, aProdB, aResA]
      norm_num [min_def, CraftProfit.mk.injEq]
    have hevC :
        evaluate_recipe aProducts
            (CraftRecipe.mk "C" 1 [CraftIngredient.mk "A" 1]) =
          some aResC := by
      simp only [evaluate_recipe, evalStep, List.foldlM, hC, hA,
        BazaarProduct.popularity, aProdA, aProdC, aResC]
      norm_num [min_def, CraftProfit.mk.injEq]
    have hevB :
        evaluate_recipe aProducts
            (CraftRecipe.mk "B" 1 [CraftIngredient.mk "C" 1]) =
          some aResB := by
      simp only [evaluate_recipe, evalStep, List.foldlM, hB, hC,
        BazaarProduct.popularity, aProdB, aProdC, aResB]
      norm_num [min_def, CraftProfit.mk.injEq]
    have hfilter :
        rankFilter aProducts aRecipes 0 500 = [aResA, aResC, aResB] := by
      simp only [rankFilter, aRecipes, List.filterMap, hevA, hevB, hevC]
      norm_num [aResA, aResB, aResC]
    show pySlice
        (sortDescBy (sortKeyFn "profit") (rankFilter aProducts aRecipes 0 500))
        (some 2) = [aResB, aResA]
    rw [hfilter]
    simp only [sortDescBy, sortKeyFn, insertDescBy, List.foldl, if_pos rfl]
    norm_num [aResA, aResB, aResC, insertDescBy, pySlice]
    rfl

theorem ranking_spec_witness :
    (0 : Int) ≤ 2
    ∧ rank_recipes aProducts aRecipes 0 500 (some 2) "profit" =
        (rank_recipes aProducts aRecipes 0 500 Option.none "profit").take
          (2 : Int).toNat :=
  ⟨by decide,
    (ranking_spec aProducts aRecipes 0 500 "profit").2.2.2.1 2 (by decide)⟩

/-- C4: during recursive extraction a mapping is first tested as itself an
ingredient: when the id/amount probe yields a valid pair, that single pair
is emitted and the values are not descended into (first conjunct); when it
does not, every value of the mapping is visited recursively (second
conjunct); every element of a non-text sequence is visited recursively
(third conjunct); concretely, a mapping holding both its own valid
id/amount keys and a nested valid ingredient yields only its own pair
(fourth conjunct). -/
theorem mapping_probed_before_descent :
    (∀ (h : Heap) (f a : Nat) (seen : Finset Nat)
        (es : List (String × PyVal)),
      a ∉ seen → Heap.get h a = PyObj.map es →
      (_coerce_product_id (idChainVal h es) ≠ "" ∧
          0 < _coerce_int (innerAmountVal h es) 0 →
        _extract_ingredient_container_inner h (f + 1) (PyVal.ref a) seen =
          some
            ([(_coerce_product_id (idChainVal h es),
                _coerce_int (innerAmountVal h es) 0)],
              insert a seen))
      ∧ (¬ (_coerce_product_id (idChainVal h es) ≠ "" ∧
            0 < _coerce_int (innerAmountVal h es) 0) →
        _extract_ingredient_container_inner h (f + 1) (PyVal.ref a) seen =
          extractChildren
            (fun w s => _extract_ingredient_container_inner h f w s)
            (es.map Prod.snd) (insert a seen)))
    ∧ (∀ (h : Heap) (f a : Nat) (seen : Finset Nat) (es : List PyVal),
        a ∉ seen → Heap.get h a = PyObj.seq es →
        _extract_ingredient_container_inner h (f + 1) (PyVal.ref a) seen =
          extractChildren
            (fun w s => _extract_ingredient_container_inner h f w s) es
            (insert a seen))
    ∧ _extract_ingredient_container c4Heap (PyVal.ref 0) = some [("A", 1)] :=
  ⟨fun h f a seen es hmem hget =>
    ⟨fun hvalid => inner_ref_map_valid h f a seen es hmem hget hvalid,
      fun hvalid => inner_ref_map_invalid h f a seen es hmem hget hvalid⟩,
    fun h f a seen es hmem hget => inner_ref_seq h f a seen es hmem hget,
    by decide⟩

theorem mapping_probed_before_descent_witness :
    (0 : Nat) ∉ (∅ : Finset Nat)
    ∧ Heap.get c4Heap 0 =
        PyObj.map [("item", PyVal.str "A"), ("amount", PyVal.int 1),
          ("nested", PyVal.ref 1)]
    ∧ _extract_ingredient_container_inner c4Heap 1 (PyVal.ref 0) ∅ =
        some ([("A", 1)], {0}) :=
  ⟨by decide, by decide,
    ((mapping_probed_before_descent.1 c4Heap 0 0 ∅
        [("item", PyVal.str "A"), ("amount", PyVal.int 1),
          ("nested", PyVal.ref 1)] (by decide) (by decide)).1 (by decide))⟩

/-- C1: for every raw ingredient container, including cyclic ones,
extraction terminates: the fuel bound `enoughFuel` is sufficient for every
heap, every value and the empty visited set (first conjunct: the
fuel-exhaustion branch is never taken); a revisited container yields
nothing and stops (second conjunct); on a concrete cyclic heap — the list
at address 0 contains a reference back to itself — extraction yields
exactly the non-cyclic ingredient pairs and nothing from the revisit
(third conjunct). -/
theorem extraction_cycle_safe :
    (∀ (h : Heap) (v : PyVal),
      (_extract_ingredient_container_inner h (enoughFuel h) v ∅).isSome)
    ∧ (∀ (h : Heap) (f a : Nat) (seen : Finset Nat), a ∈ seen →
        _extract_ingredient_container_inner h (f + 1) (PyVal.ref a) seen =
          some ([], seen))
    ∧ _extract_ingredient_container cyclicHeap (PyVal.ref 0) =
        some [("STRING", 4), ("WOOL", 2)] :=
  ⟨fun h v => inner_isSome_enough h v ∅ (by rw [unv_empty]; exact Nat.le.refl),
    fun h f a seen hmem => inner_ref_mem h f a seen hmem,
    by decide⟩

theorem extraction_cycle_safe_witness :
    (0 : Nat) ∈ ({0} : Finset Nat) ∧
      _extract_ingredient_container_inner cyclicHeap 3 (PyVal.ref 0)
          ({0} : Finset Nat) =
        some ([], ({0} : Finset Nat)) :=
  ⟨by decide, extraction_cycle_safe.2.1 cyclicHeap 2 0 {0} (by decide)⟩

/-- C9: normalization never raises on any input: for every heap and every
raw payload value, `_parse_hypixel_payload` produces a (possibly empty)
recipe list — the `none` branch that models an uncaught exception is
unreachable. -/
theorem normalization_never_raises :
    ∀ (h : Heap) (data : PyVal),
      ∃ recipes, _parse_hypixel_payload h data = some recipes := by
  intro h data
  have := _parse_hypixel_payload_isSome h data
  cases hs : _parse_hypixel_payload h data with
  | none => rw [hs] at this; exact absurd this (by simp)
  | some recipes => exact ⟨recipes, rfl⟩
